import Mathlib

/-!
Verification of the maze-game core of the Proyecto02 repository.

The definitions below are a shallow embedding of the Python sources:
 * `src/modelo/tile.py`    — tile variants and their base passability,
 * `src/modelo/mapa.py`    — the grid, passability queries and BFS reachability,
 * `src/logica/generador_mapa.py` — the generator verification and fallback grid,
 * `src/modelo/jugador.py` — the player movement and stamina rules,
 * `src/modelo/trampa.py`  — traps and the trap manager,
 * `src/modelo/enemigo.py` — enemy movement and pursuit.

Python machine floats are modelled by exact rationals, board coordinates by
integers (Python ints), visited matrices by lists of positions, and the BFS
parent dictionary by an association list with unique keys.  The BFS while
loops are embedded with an explicit fuel argument; the callers pass a fuel
bounded below by the loop measure (queue length plus unvisited cells), which
never runs out, as the adequacy lemmas below prove.
-/

/-- Position on the board: (fila, columna), as Python ints. -/
abbrev Pos := ℤ × ℤ

/-- Tile variants, from src/modelo/tile.py (TipoTile / the four Tile classes). -/
inductive Tile where
  | camino : Tile
  | muro : Tile
  | liana : Tile
  | tunel : Tile
deriving DecidableEq, Repr

/-- Base player passability of each tile class (permite_paso_jugador),
tile.py lines 72-74, 92-94, 117-122, 148-153. -/
def Tile.permite_paso_jugador : Tile → Bool
  | .camino => true
  | .muro => false
  | .liana => false
  | .tunel => true

/-- Base enemy passability of each tile class (permite_paso_enemigo),
tile.py lines 76-78, 96-98, 124-129, 155-160. -/
def Tile.permite_paso_enemigo : Tile → Bool
  | .camino => true
  | .muro => false
  | .liana => true
  | .tunel => false

/-- Game mode, the "escapa" / "cazador" string tag used throughout the source. -/
inductive Modo where
  | escapa : Modo
  | cazador : Modo
deriving DecidableEq, Repr

/-- Actor class used to state mode-aware passability claims. -/
inductive Actor where
  | jugador : Actor
  | enemigo : Actor
deriving DecidableEq, Repr

/-- Matrix lookup casillas[fila][columna]; callers in the source only index
in bounds, so the default value is never observed there. -/
def casillaEn (casillas : List (List Tile)) (fila columna : ℤ) : Tile :=
  (casillas.getD fila.toNat []).getD columna.toNat Tile.muro

/-- The grid, src/modelo/mapa.py class Mapa (attributes set at lines 74-82). -/
structure Mapa where
  ancho : ℤ
  alto : ℤ
  casillas : List (List Tile)
  posicion_inicio : Pos
  posiciones_salida : List Pos
deriving DecidableEq, Repr

/-- Bounds check, mapa.py line 95. -/
def Mapa.es_posicion_valida (m : Mapa) (fila columna : ℤ) : Bool :=
  decide (0 ≤ fila ∧ fila < m.alto ∧ 0 ≤ columna ∧ columna < m.ancho)

/-- Player passability query, mapa.py lines 97-130: bounds check, then the
mode-cazador special cases for Liana/Tunel, else the tile base rule. -/
def Mapa.es_transitable_por_jugador (m : Mapa) (fila columna : ℤ)
    (modo : Modo := .escapa) : Bool :=
  if m.es_posicion_valida fila columna = false then false
  else
    let tile := casillaEn m.casillas fila columna
    if modo = .cazador ∧ tile = .liana then true
    else if modo = .cazador ∧ tile = .tunel then false
    else tile.permite_paso_jugador

/-- Enemy passability query, mapa.py lines 132-164. -/
def Mapa.es_transitable_por_enemigo (m : Mapa) (fila columna : ℤ)
    (modo : Modo := .escapa) : Bool :=
  if m.es_posicion_valida fila columna = false then false
  else
    let tile := casillaEn m.casillas fila columna
    if modo = .cazador ∧ tile = .tunel then true
    else if modo = .cazador ∧ tile = .liana then false
    else tile.permite_paso_enemigo

/-- Mode-aware passability for either actor class, dispatching to the two
queries above; used to state claims that quantify over the actor. -/
def Mapa.transitable (m : Mapa) (actor : Actor) (fila columna : ℤ) (modo : Modo) : Bool :=
  match actor with
  | .jugador => m.es_transitable_por_jugador fila columna modo
  | .enemigo => m.es_transitable_por_enemigo fila columna modo

/-- Neighbour offsets in source order: arriba, abajo, izquierda, derecha
(mapa.py line 261, generador_mapa.py lines 532/591/638, enemigo.py line 410). -/
def direcciones : List (ℤ × ℤ) := [(-1, 0), (1, 0), (0, -1), (0, 1)]

/-- In-bound cells of an alto × ancho board, as a finite set. -/
def celdas (alto ancho : ℤ) : Finset Pos :=
  Finset.Icc 0 (alto - 1) ×ˢ Finset.Icc 0 (ancho - 1)

/-- The explicit bounds test `0 <= fila < alto and 0 <= columna < ancho`
appearing in every BFS neighbour loop of the source. -/
def enLimites (alto ancho : ℤ) (p : Pos) : Prop :=
  0 ≤ p.1 ∧ p.1 < alto ∧ 0 ≤ p.2 ∧ p.2 < ancho

instance (alto ancho : ℤ) (p : Pos) : Decidable (enLimites alto ancho p) := by
  unfold enLimites; infer_instance

lemma mem_celdas {alto ancho : ℤ} {p : Pos} :
    p ∈ celdas alto ancho ↔ enLimites alto ancho p := by
  cases p with
  | mk f c =>
    simp only [celdas, Finset.mem_product, Finset.mem_Icc, enLimites]
    omega

/-- Number of in-bound cells not yet visited: the BFS loop measure. -/
def noVisitadas (alto ancho : ℤ) (visitado : List Pos) : ℕ :=
  ((celdas alto ancho).filter (fun c => c ∉ visitado)).card

lemma noVisitadas_le (alto ancho : ℤ) (visitado : List Pos) :
    noVisitadas alto ancho visitado ≤ (celdas alto ancho).card :=
  Finset.card_filter_le _ _

lemma noVisitadas_cons_lt {alto ancho : ℤ} {visitado : List Pos} {n : Pos}
    (hb : enLimites alto ancho n) (hnv : n ∉ visitado) :
    noVisitadas alto ancho (n :: visitado) < noVisitadas alto ancho visitado := by
  apply Finset.card_lt_card
  rw [Finset.ssubset_def]
  constructor
  · intro c hc
    rw [Finset.mem_filter] at hc ⊢
    exact ⟨hc.1, fun hcv => hc.2 (List.mem_cons_of_mem _ hcv)⟩
  · intro hsub
    have hn := hsub (Finset.mem_filter.mpr ⟨mem_celdas.mpr hb, hnv⟩)
    exact (Finset.mem_filter.mp hn).2 (List.mem_cons_self _ _)

/-- One round of neighbour exploration of the BFS loop body: for each offset in
`dirs`, if the neighbour is in bounds, unvisited and passable, mark it visited
and append it to the queue (mapa.py lines 272-284 and the generator/enemy
copies of the same loop). -/
def expandir (pass : Pos → Bool) (alto ancho : ℤ) (pos : Pos) :
    List (ℤ × ℤ) → List Pos × List Pos → List Pos × List Pos
  | [], qv => qv
  | d :: ds, (cola, visitado) =>
    let n : Pos := (pos.1 + d.1, pos.2 + d.2)
    if enLimites alto ancho n ∧ n ∉ visitado ∧ pass n = true then
      expandir pass alto ancho pos ds (cola ++ [n], n :: visitado)
    else
      expandir pass alto ancho pos ds (cola, visitado)

lemma expandir_visitado_mono (pass : Pos → Bool) (alto ancho : ℤ) (pos : Pos)
    (dirs : List (ℤ × ℤ)) (cola visitado : List Pos) {x : Pos} (hx : x ∈ visitado) :
    x ∈ (expandir pass alto ancho pos dirs (cola, visitado)).2 := by
  induction dirs generalizing cola visitado with
  | nil => simpa [expandir] using hx
  | cons d ds ih =>
    simp only [expandir]
    split
    · exact ih _ _ (List.mem_cons_of_mem _ hx)
    · exact ih _ _ hx

/-- One exploration round never increases the loop measure. -/
lemma expandir_medida_le (pass : Pos → Bool) (alto ancho : ℤ) (pos : Pos)
    (dirs : List (ℤ × ℤ)) (cola visitado : List Pos) :
    (expandir pass alto ancho pos dirs (cola, visitado)).1.length +
      noVisitadas alto ancho (expandir pass alto ancho pos dirs (cola, visitado)).2 ≤
    cola.length + noVisitadas alto ancho visitado := by
  induction dirs generalizing cola visitado with
  | nil => exact le_refl _
  | cons d ds ih =>
    simp only [expandir]
    split
    · next hcond =>
      refine le_trans (ih _ _) ?_
      have hlt := noVisitadas_cons_lt hcond.1 hcond.2.1
      simp only [List.length_append, List.length_cons, List.length_nil]
      omega
    · exact ih _ _

lemma expandir_queue_sub (pass : Pos → Bool) (alto ancho : ℤ) (pos : Pos)
    (dirs : List (ℤ × ℤ)) (cola visitado : List Pos) {x : Pos} (hx : x ∈ cola) :
    x ∈ (expandir pass alto ancho pos dirs (cola, visitado)).1 := by
  induction dirs generalizing cola visitado with
  | nil => simpa [expandir] using hx
  | cons d ds ih =>
    simp only [expandir]
    split
    · exact ih _ _ (List.mem_append_left _ hx)
    · exact ih _ _ hx

lemma expandir_queue_mem (pass : Pos → Bool) (alto ancho : ℤ) (pos : Pos)
    (dirs : List (ℤ × ℤ)) (cola visitado : List Pos) {x : Pos}
    (hx : x ∈ (expandir pass alto ancho pos dirs (cola, visitado)).1) :
    x ∈ cola ∨ x ∈ (expandir pass alto ancho pos dirs (cola, visitado)).2 := by
  induction dirs generalizing cola visitado with
  | nil => exact Or.inl (by simpa [expandir] using hx)
  | cons d ds ih =>
    simp only [expandir] at hx ⊢
    split at hx
    · rcases ih _ _ hx with hc | hv
      · rcases List.mem_append.mp hc with hc | hn
        · exact Or.inl hc
        · right
          have : x ∈ (pos.1 + d.1, pos.2 + d.2) :: visitado :=
            (List.mem_singleton.mp hn) ▸ List.mem_cons_self _ _
          simpa [expandir, *] using
            expandir_visitado_mono pass alto ancho pos ds _ _ this
      · right; simpa [expandir, *] using hv
    · rcases ih _ _ hx with hc | hv
      · exact Or.inl hc
      · right; simpa [expandir, *] using hv

lemma expandir_new_mem_queue (pass : Pos → Bool) (alto ancho : ℤ) (pos : Pos)
    (dirs : List (ℤ × ℤ)) (cola visitado : List Pos) {x : Pos}
    (hx : x ∈ (expandir pass alto ancho pos dirs (cola, visitado)).2) :
    x ∈ visitado ∨ x ∈ (expandir pass alto ancho pos dirs (cola, visitado)).1 := by
  induction dirs generalizing cola visitado with
  | nil => exact Or.inl (by simpa [expandir] using hx)
  | cons d ds ih =>
    simp only [expandir] at hx ⊢
    by_cases hcond : enLimites alto ancho (pos.1 + d.1, pos.2 + d.2) ∧
        (pos.1 + d.1, pos.2 + d.2) ∉ visitado ∧ pass (pos.1 + d.1, pos.2 + d.2) = true
    · rw [if_pos hcond] at hx ⊢
      rcases ih _ _ hx with hv | hq
      · rcases List.mem_cons.mp hv with hn | hv
        · subst hn
          exact Or.inr (expandir_queue_sub pass alto ancho pos ds _ _
            (List.mem_append_right _ (List.mem_singleton.mpr rfl)))
        · exact Or.inl hv
      · exact Or.inr hq
    · rw [if_neg hcond] at hx ⊢
      rcases ih _ _ hx with hv | hq
      · exact Or.inl hv
      · exact Or.inr hq

/-- Every in-bounds, passable neighbour of the popped cell is visited after the
exploration round. -/
lemma expandir_vecino_visitado (pass : Pos → Bool) (alto ancho : ℤ) (pos : Pos)
    (dirs : List (ℤ × ℤ)) (cola visitado : List Pos) {d : ℤ × ℤ} (hd : d ∈ dirs)
    (hb : enLimites alto ancho (pos.1 + d.1, pos.2 + d.2))
    (hp : pass (pos.1 + d.1, pos.2 + d.2) = true) :
    (pos.1 + d.1, pos.2 + d.2) ∈ (expandir pass alto ancho pos dirs (cola, visitado)).2 := by
  induction dirs generalizing cola visitado with
  | nil => cases hd
  | cons e ds ih =>
    rcases List.mem_cons.mp hd with hde | hds
    · subst hde
      simp only [expandir]
      split
      · exact expandir_visitado_mono pass alto ancho pos ds _ _ (List.mem_cons_self _ _)
      · next hcond =>
        have hv : (pos.1 + d.1, pos.2 + d.2) ∈ visitado := by
          by_contra hnv
          exact hcond ⟨hb, hnv, hp⟩
        exact expandir_visitado_mono pass alto ancho pos ds _ _ hv
    · simp only [expandir]
      split
      · exact ih _ _ hds
      · exact ih _ _ hds

/-- Cells that became visited during the round are in-bounds passable
neighbours of the popped cell. -/
lemma expandir_visitado_src (pass : Pos → Bool) (alto ancho : ℤ) (pos : Pos)
    (dirs : List (ℤ × ℤ)) (cola visitado : List Pos) {x : Pos}
    (hx : x ∈ (expandir pass alto ancho pos dirs (cola, visitado)).2) :
    x ∈ visitado ∨
      (∃ d ∈ dirs, x = (pos.1 + d.1, pos.2 + d.2)) ∧
        enLimites alto ancho x ∧ pass x = true := by
  induction dirs generalizing cola visitado with
  | nil => exact Or.inl (by simpa [expandir] using hx)
  | cons d ds ih =>
    simp only [expandir] at hx
    split at hx
    · next hcond =>
      rcases ih _ _ hx with hv | ⟨⟨e, he, hxe⟩, hrest⟩
      · rcases List.mem_cons.mp hv with hn | hv
        · exact Or.inr ⟨⟨d, List.mem_cons_self _ _, hn⟩, hn ▸ hcond.1, hn ▸ hcond.2.2⟩
        · exact Or.inl hv
      · exact Or.inr ⟨⟨e, List.mem_cons_of_mem _ he, hxe⟩, hrest⟩
    · rcases ih _ _ hx with hv | ⟨⟨e, he, hxe⟩, hrest⟩
      · exact Or.inl hv
      · exact Or.inr ⟨⟨e, List.mem_cons_of_mem _ he, hxe⟩, hrest⟩

/-- The BFS while loop shared by mapa.py existe_camino_valido (lines 255-287)
and the generator copies (generador_mapa.py lines 587-613 / 634-658): pop the
front of the queue, succeed if it is the target, otherwise explore the four
neighbours.  The passability predicate `pass` is the caller-supplied
actor-and-mode rule; `fuel` bounds the number of iterations and is chosen by
the callers so that it never runs out. -/
def bfsLoop (pass : Pos → Bool) (alto ancho : ℤ) (objetivo : Pos) :
    ℕ → List Pos → List Pos → Bool
  | 0, _, _ => false
  | _ + 1, [], _ => false
  | fuel + 1, pos :: resto, visitado =>
    if pos = objetivo then true
    else
      let qv := expandir pass alto ancho pos direcciones (resto, visitado)
      bfsLoop pass alto ancho objetivo fuel qv.1 qv.2

/-- One BFS step: `q` is one of the four neighbours of `p`, inside the board,
and passable under the supplied rule. -/
def PasoBFS (pass : Pos → Bool) (alto ancho : ℤ) (p q : Pos) : Prop :=
  (∃ d ∈ direcciones, q = (p.1 + d.1, p.2 + d.2)) ∧
    enLimites alto ancho q ∧ pass q = true

/-- Reachability along BFS steps (reflexive-transitive closure). -/
def AlcanzaDesde (pass : Pos → Bool) (alto ancho : ℤ) (a y : Pos) : Prop :=
  Relation.ReflTransGen (PasoBFS pass alto ancho) a y

lemma cerrado_alcanza {pass : Pos → Bool} {alto ancho : ℤ} {V : List Pos} {a y : Pos}
    (ha : a ∈ V) (hcl : ∀ x ∈ V, ∀ z, PasoBFS pass alto ancho x z → z ∈ V)
    (hr : AlcanzaDesde pass alto ancho a y) : y ∈ V := by
  induction hr with
  | refl => exact ha
  | tail _ hstep ih => exact hcl _ ih _ hstep

/-- Soundness of the BFS loop: a positive answer means the target is reachable
from `a` along in-bounds passable steps, provided every visited cell is. -/
lemma bfsLoop_sound {pass : Pos → Bool} {alto ancho : ℤ} {objetivo : Pos} (a : Pos) :
    ∀ (fuel : ℕ) (cola visitado : List Pos),
      (∀ x ∈ visitado, AlcanzaDesde pass alto ancho a x) →
      (∀ x ∈ cola, x ∈ visitado) →
      bfsLoop pass alto ancho objetivo fuel cola visitado = true →
      AlcanzaDesde pass alto ancho a objetivo := by
  intro fuel
  induction fuel with
  | zero => intro cola visitado _ _ h; simp [bfsLoop] at h
  | succ fuel ih =>
    intro cola visitado hvis hcola h
    match cola with
    | [] => simp [bfsLoop] at h
    | pos :: resto =>
      by_cases hobj : pos = objetivo
      · exact hobj ▸ hvis pos (hcola pos (List.mem_cons_self _ _))
      · rw [bfsLoop, if_neg hobj] at h
        refine ih _ _ ?_ ?_ h
        · intro x hx
          rcases expandir_visitado_src pass alto ancho pos direcciones resto visitado hx
            with hv | ⟨hady, hb, hp⟩
          · exact hvis x hv
          · exact Relation.ReflTransGen.tail
              (hvis pos (hcola pos (List.mem_cons_self _ _))) ⟨hady, hb, hp⟩
        · intro x hx
          rcases expandir_queue_mem pass alto ancho pos direcciones resto visitado hx
            with hc | hv
          · exact expandir_visitado_mono pass alto ancho pos direcciones _ _
              (hcola x (List.mem_cons_of_mem _ hc))
          · exact hv

/-- Completeness of the BFS loop: with enough fuel and the loop invariants, a
reachable target produces a positive answer. -/
lemma bfsLoop_complete {pass : Pos → Bool} {alto ancho : ℤ} {objetivo : Pos} (a : Pos) :
    ∀ (fuel : ℕ) (cola visitado : List Pos),
      a ∈ visitado →
      (∀ x ∈ cola, x ∈ visitado) →
      (∀ x ∈ visitado, x ∈ cola ∨ ∀ z, PasoBFS pass alto ancho x z → z ∈ visitado) →
      (objetivo ∈ visitado → objetivo ∈ cola) →
      cola.length + noVisitadas alto ancho visitado ≤ fuel →
      AlcanzaDesde pass alto ancho a objetivo →
      bfsLoop pass alto ancho objetivo fuel cola visitado = true := by
  intro fuel
  induction fuel with
  | zero =>
    intro cola visitado ha hcola hproc hobj hfuel hr
    exfalso
    have hcnil : cola = [] := List.length_eq_zero.mp (by omega)
    subst hcnil
    have : objetivo ∈ visitado :=
      cerrado_alcanza ha
        (fun x hx => (hproc x hx).resolve_left (by simp)) hr
    simpa using hobj this
  | succ fuel ih =>
    intro cola visitado ha hcola hproc hobj hfuel hr
    match cola with
    | [] =>
      exfalso
      have : objetivo ∈ visitado :=
        cerrado_alcanza ha
          (fun x hx => (hproc x hx).resolve_left (by simp)) hr
      simpa using hobj this
    | pos :: resto =>
      by_cases hpo : pos = objetivo
      · rw [bfsLoop, if_pos hpo]
      · rw [bfsLoop, if_neg hpo]
        have hmono : ∀ x ∈ visitado,
            x ∈ (expandir pass alto ancho pos direcciones (resto, visitado)).2 :=
          fun x hx => expandir_visitado_mono pass alto ancho pos direcciones _ _ hx
        refine ih _ _ (hmono a ha) ?_ ?_ ?_ ?_ hr
        · intro x hx
          rcases expandir_queue_mem pass alto ancho pos direcciones resto visitado hx
            with hc | hv
          · exact hmono x (hcola x (List.mem_cons_of_mem _ hc))
          · exact hv
        · intro x hx
          rcases expandir_new_mem_queue pass alto ancho pos direcciones resto visitado hx
            with hv | hq
          · rcases hproc x hv with hxc | hcl
            · rcases List.mem_cons.mp hxc with hxpos | hxr
              · subst hxpos
                right
                rintro z ⟨⟨d, hd, hz⟩, hb, hp⟩
                exact hz ▸ expandir_vecino_visitado pass alto ancho x direcciones
                  _ _ hd (hz ▸ hb) (hz ▸ hp)
              · exact Or.inl (expandir_queue_sub pass alto ancho pos direcciones _ _ hxr)
            · exact Or.inr (fun z hz => hmono z (hcl z hz))
          · exact Or.inl hq
        · intro hobjv
          rcases expandir_new_mem_queue pass alto ancho pos direcciones resto visitado hobjv
            with hv | hq
          · have := hobj hv
            rcases List.mem_cons.mp this with hpo2 | hr2
            · exact absurd hpo2.symm hpo
            · exact expandir_queue_sub pass alto ancho pos direcciones _ _ hr2
          · exact hq
        · have := expandir_medida_le pass alto ancho pos direcciones resto visitado
          simp only [List.length_cons] at hfuel
          omega

/-- BFS reachability check for the player, mapa.py lines 221-287
(existe_camino_valido with both endpoints given): both endpoints must be
player-passable in escapa mode, then the BFS while loop runs from `desde`. -/
def Mapa.existe_camino_valido (m : Mapa) (desde hasta : Pos) : Bool :=
  if m.es_transitable_por_jugador desde.1 desde.2 .escapa = false then false
  else if m.es_transitable_por_jugador hasta.1 hasta.2 .escapa = false then false
  else
    bfsLoop (fun p => m.es_transitable_por_jugador p.1 p.2 .escapa) m.alto m.ancho hasta
      ((celdas m.alto m.ancho).card + 2) [desde] [desde]

example : Mapa.existe_camino_valido
    ⟨2, 2, [[.camino, .camino], [.camino, .camino]], (0, 0), [(1, 1)]⟩ (0, 0) (1, 1)
    = true := by decide
example : Mapa.existe_camino_valido
    ⟨3, 1, [[.camino, .muro, .camino]], (0, 0), [(0, 2)]⟩ (0, 0) (0, 2) = false := by
  decide

/-- One step of actor movement on a grid: a 4-neighbour jump onto a cell that
the actor may enter under the given mode (the query already includes the
bounds check). -/
def PasoActor (m : Mapa) (actor : Actor) (modo : Modo) (p q : Pos) : Prop :=
  (∃ d ∈ direcciones, q = (p.1 + d.1, p.2 + d.2)) ∧
    m.transitable actor q.1 q.2 modo = true

/-- Destination reachable from the source via 4-connected cells passable for
the given actor under the given mode (both endpoints included). -/
def AlcanzableActor (m : Mapa) (actor : Actor) (modo : Modo) (desde hasta : Pos) : Prop :=
  m.transitable actor desde.1 desde.2 modo = true ∧
    Relation.ReflTransGen (PasoActor m actor modo) desde hasta

lemma transitable_enLimites {m : Mapa} {actor : Actor} {modo : Modo} {f c : ℤ}
    (h : m.transitable actor f c modo = true) : enLimites m.alto m.ancho (f, c) := by
  by_contra hb
  have hval : m.es_posicion_valida f c = false := by
    simp only [Mapa.es_posicion_valida, decide_eq_false_iff_not]
    exact fun hcon => hb ⟨hcon.1, hcon.2.1, hcon.2.2.1, hcon.2.2.2⟩
  cases actor with
  | jugador =>
    simp only [Mapa.transitable, Mapa.es_transitable_por_jugador, hval] at h
    simp at h
  | enemigo =>
    simp only [Mapa.transitable, Mapa.es_transitable_por_enemigo, hval] at h
    simp at h

lemma pasoActor_iff_pasoBFS (m : Mapa) (actor : Actor) (modo : Modo) (p q : Pos) :
    PasoActor m actor modo p q ↔
      PasoBFS (fun r => m.transitable actor r.1 r.2 modo) m.alto m.ancho p q := by
  constructor
  · rintro ⟨hady, ht⟩
    exact ⟨hady, transitable_enLimites ht, ht⟩
  · rintro ⟨hady, _, ht⟩
    exact ⟨hady, ht⟩

lemma alcanzable_fin_transitable {m : Mapa} {actor : Actor} {modo : Modo}
    {desde hasta : Pos} (h : AlcanzableActor m actor modo desde hasta) :
    m.transitable actor hasta.1 hasta.2 modo = true := by
  rcases h with ⟨hini, hsteps⟩
  rcases Relation.ReflTransGen.cases_tail hsteps with heq | ⟨c, _, hstep⟩
  · exact heq ▸ hini
  · exact hstep.2

/-- Characterisation of mapa.py existe_camino_valido: it answers exactly
player-under-escapa reachability (the method takes no actor or mode). -/
lemma existe_camino_valido_iff (m : Mapa) (desde hasta : Pos) :
    m.existe_camino_valido desde hasta = true ↔
      AlcanzableActor m .jugador .escapa desde hasta := by
  have hpassdef : ∀ p : Pos,
      m.es_transitable_por_jugador p.1 p.2 .escapa =
        m.transitable .jugador p.1 p.2 .escapa := fun _ => rfl
  constructor
  · intro h
    unfold Mapa.existe_camino_valido at h
    by_cases hdesde : m.es_transitable_por_jugador desde.1 desde.2 .escapa = false
    · rw [if_pos hdesde] at h; cases h
    · rw [if_neg hdesde] at h
      by_cases hhasta : m.es_transitable_por_jugador hasta.1 hasta.2 .escapa = false
      · rw [if_pos hhasta] at h; cases h
      · rw [if_neg hhasta] at h
        have hsound := bfsLoop_sound desde _ _ _
          (fun x hx => by
            rw [List.mem_singleton.mp hx]
            exact Relation.ReflTransGen.refl)
          (fun x hx => hx) h
        refine ⟨Bool.not_eq_false _ |>.mp hdesde, ?_⟩
        exact Relation.ReflTransGen.mono
          (fun p q hs => (pasoActor_iff_pasoBFS m .jugador .escapa p q).mpr hs) hsound
  · intro h
    have hdesde := h.1
    have hhasta := alcanzable_fin_transitable h
    unfold Mapa.existe_camino_valido
    rw [if_neg (by rw [hpassdef desde]; simp [hdesde]),
      if_neg (by rw [hpassdef hasta]; simp [hhasta])]
    refine bfsLoop_complete desde _ _ _ (List.mem_singleton.mpr rfl)
      (fun x hx => hx) ?_ (fun hx => hx) ?_ ?_
    · intro x hx
      exact Or.inl hx
    · have := noVisitadas_le m.alto m.ancho [desde]
      simp only [List.length_singleton]
      omega
    · exact Relation.ReflTransGen.mono
        (fun p q hs => (pasoActor_iff_pasoBFS m .jugador .escapa p q).mp hs) h.2

/-- Grid construction with its validation sequence, mapa.py lines 40-82:
positive dimensions, row count equal to alto, first-row length equal to
ancho, start in bounds, non-empty exit list, every exit in bounds; on
success the attributes are stored unchanged. -/
def Mapa.nuevo (ancho alto : ℤ) (casillas : List (List Tile))
    (posicion_inicio : Pos) (posiciones_salida : List Pos) : Except String Mapa :=
  if ancho ≤ 0 ∨ alto ≤ 0 then
    .error "El ancho y alto del mapa deben ser mayores a 0"
  else if (casillas.length : ℤ) ≠ alto then
    .error "El numero de filas en casillas no coincide con alto"
  else if 0 < casillas.length ∧ ((casillas.getD 0 []).length : ℤ) ≠ ancho then
    .error "El numero de columnas en casillas no coincide con ancho"
  else if ¬ (0 ≤ posicion_inicio.1 ∧ posicion_inicio.1 < alto ∧
      0 ≤ posicion_inicio.2 ∧ posicion_inicio.2 < ancho) then
    .error "Posicion inicial invalida"
  else if posiciones_salida.isEmpty then
    .error "Debe haber al menos una salida"
  else if ¬ (∀ s ∈ posiciones_salida,
      0 ≤ s.1 ∧ s.1 < alto ∧ 0 ≤ s.2 ∧ s.2 < ancho) then
    .error "Posicion de salida invalida"
  else
    .ok ⟨ancho, alto, casillas, posicion_inicio, posiciones_salida⟩

/-- Passability test used by the generator's escapa-mode BFS verification
(generador_mapa.py line 653): the raw tile rule, bounds handled by the loop. -/
def pasaJugadorEscapaGen (casillas : List (List Tile)) (p : Pos) : Bool :=
  (casillaEn casillas p.1 p.2).permite_paso_jugador

/-- Passability test used by the generator's cazador-mode BFS verification
(generador_mapa.py lines 607-609): Camino or Liana, never Tunel. -/
def pasaJugadorCazadorGen (casillas : List (List Tile)) (p : Pos) : Bool :=
  casillaEn casillas p.1 p.2 = Tile.camino || casillaEn casillas p.1 p.2 = Tile.liana

/-- GeneradorMapa._existe_camino_valido, generador_mapa.py lines 615-658. -/
def generador_existe_camino_valido (alto ancho : ℤ) (casillas : List (List Tile))
    (inicio salida : Pos) : Bool :=
  if pasaJugadorEscapaGen casillas inicio = false then false
  else if pasaJugadorEscapaGen casillas salida = false then false
  else
    bfsLoop (pasaJugadorEscapaGen casillas) alto ancho salida
      ((celdas alto ancho).card + 2) [inicio] [inicio]

/-- GeneradorMapa._existe_camino_valido_cazador, generador_mapa.py lines 561-613. -/
def generador_existe_camino_valido_cazador (alto ancho : ℤ) (casillas : List (List Tile))
    (inicio salida : Pos) : Bool :=
  if pasaJugadorCazadorGen casillas inicio = false then false
  else if pasaJugadorCazadorGen casillas salida = false then false
  else
    bfsLoop (pasaJugadorCazadorGen casillas) alto ancho salida
      ((celdas alto ancho).card + 2) [inicio] [inicio]

/-- The final verification of a generation attempt, generador_mapa.py lines
83-94: every exit must pass the mode-appropriate BFS check, otherwise the
attempt is discarded.  A grid is returned on the non-fallback path exactly
when this predicate holds for its cell matrix. -/
def verificacion_generador (modo : Modo) (alto ancho : ℤ) (casillas : List (List Tile))
    (inicio : Pos) (salidas : List Pos) : Bool :=
  match modo with
  | .cazador =>
    salidas.all (fun s => generador_existe_camino_valido_cazador alto ancho casillas inicio s)
  | .escapa =>
    salidas.all (fun s => generador_existe_camino_valido alto ancho casillas inicio s)

/-- The mode-specific tile rule the generator verifies with, as one function. -/
def pasaJugadorGen (modo : Modo) (casillas : List (List Tile)) (p : Pos) : Bool :=
  match modo with
  | .escapa => pasaJugadorEscapaGen casillas p
  | .cazador => pasaJugadorCazadorGen casillas p

lemma transit_mk_gen (modo : Modo) (ancho alto : ℤ) (casillas : List (List Tile))
    (i : Pos) (s : List Pos) (p : Pos) :
    (Mapa.mk ancho alto casillas i s).transitable .jugador p.1 p.2 modo = true ↔
      enLimites alto ancho p ∧ pasaJugadorGen modo casillas p = true := by
  have hval : (Mapa.mk ancho alto casillas i s).es_posicion_valida p.1 p.2 =
      decide (enLimites alto ancho p) := by
    simp [Mapa.es_posicion_valida, enLimites]
  by_cases hb : enLimites alto ancho p
  · cases modo with
    | escapa =>
      simp only [Mapa.transitable, Mapa.es_transitable_por_jugador, hval, hb,
        pasaJugadorGen, pasaJugadorEscapaGen]
      simp [hb]
    | cazador =>
      simp only [Mapa.transitable, Mapa.es_transitable_por_jugador, hval,
        pasaJugadorGen, pasaJugadorCazadorGen]
      rcases hc : casillaEn casillas p.1 p.2 with _ | _ | _ | _ <;>
        simp [hb, hc, Tile.permite_paso_jugador]
  · simp only [Mapa.transitable, Mapa.es_transitable_por_jugador, hval]
    simp [hb]

/-- Soundness of the generator's verification: if the mode-appropriate BFS
check succeeds for an exit, that exit is reachable from the start on the grid
built from the verified cell matrix, through player-passable cells under the
generating mode. -/
lemma generador_verificacion_alcanzable (modo : Modo) (ancho alto : ℤ)
    (casillas : List (List Tile)) (inicio : Pos) (salidas : List Pos)
    (hini : enLimites alto ancho inicio)
    (hver : verificacion_generador modo alto ancho casillas inicio salidas = true) :
    ∀ s ∈ salidas,
      AlcanzableActor (Mapa.mk ancho alto casillas inicio salidas) .jugador modo inicio s := by
  intro s hs
  have hcheck : (match modo with
      | .cazador => generador_existe_camino_valido_cazador alto ancho casillas inicio s
      | .escapa => generador_existe_camino_valido alto ancho casillas inicio s) = true := by
    cases modo with
    | escapa => exact List.all_eq_true.mp hver s hs
    | cazador => exact List.all_eq_true.mp hver s hs
  have hmain : pasaJugadorGen modo casillas inicio = true ∧
      bfsLoop (pasaJugadorGen modo casillas) alto ancho s
        ((celdas alto ancho).card + 2) [inicio] [inicio] = true := by
    cases modo with
    | escapa =>
      unfold generador_existe_camino_valido at hcheck
      by_cases h1 : pasaJugadorEscapaGen casillas inicio = false
      · rw [if_pos h1] at hcheck; cases hcheck
      · rw [if_neg h1] at hcheck
        by_cases h2 : pasaJugadorEscapaGen casillas s = false
        · rw [if_pos h2] at hcheck; cases hcheck
        · rw [if_neg h2] at hcheck
          exact ⟨Bool.not_eq_false _ |>.mp h1, hcheck⟩
    | cazador =>
      unfold generador_existe_camino_valido_cazador at hcheck
      by_cases h1 : pasaJugadorCazadorGen casillas inicio = false
      · rw [if_pos h1] at hcheck; cases hcheck
      · rw [if_neg h1] at hcheck
        by_cases h2 : pasaJugadorCazadorGen casillas s = false
        · rw [if_pos h2] at hcheck; cases hcheck
        · rw [if_neg h2] at hcheck
          exact ⟨Bool.not_eq_false _ |>.mp h1, hcheck⟩
  have hsound := bfsLoop_sound inicio _ _ _
    (fun x hx => by
      rw [List.mem_singleton.mp hx]
      exact Relation.ReflTransGen.refl)
    (fun x hx => hx) hmain.2
  refine ⟨(transit_mk_gen modo ancho alto casillas inicio salidas inicio).mpr
    ⟨hini, hmain.1⟩, ?_⟩
  refine Relation.ReflTransGen.mono ?_ hsound
  rintro p q ⟨hady, hb, hp⟩
  exact ⟨hady, (transit_mk_gen modo ancho alto casillas inicio salidas q).mpr ⟨hb, hp⟩⟩

/-- Setting casillas[p.1][p.2] = Camino(), as done for the start and exit
cells of the fallback grid (generador_mapa.py lines 100-102). -/
def ponCamino (casillas : List (List Tile)) (p : Pos) : List (List Tile) :=
  casillas.set p.1.toNat ((casillas.getD p.1.toNat []).set p.2.toNat Tile.camino)

/-- The checkerboard fallback emitted after 10 failed attempts,
generador_mapa.py lines 98-103: Camino where (i + j) is even, else Muro, then
the start and every exit forced to Camino. -/
def casillas_fallback (ancho alto : ℤ) (inicio : Pos) (salidas : List Pos) :
    List (List Tile) :=
  salidas.foldl ponCamino
    (ponCamino ((List.range alto.toNat).map (fun i =>
      (List.range ancho.toNat).map (fun j =>
        if (i + j) % 2 = 0 then Tile.camino else Tile.muro))) inicio)

/-- The Mapa object returned on the fallback path (generador_mapa.py line 103). -/
def mapa_fallback (ancho alto : ℤ) (inicio : Pos) (salidas : List Pos) : Mapa :=
  ⟨ancho, alto, casillas_fallback ancho alto inicio salidas, inicio, salidas⟩

example : casillaEn (casillas_fallback 5 5 (1, 1) [(1, 3)]) 1 1 = .camino := by decide
example : casillaEn (casillas_fallback 5 5 (1, 1) [(1, 3)]) 1 2 = .muro := by decide

/-- The player, src/modelo/jugador.py lines 26-39.  Python float stamina is
modelled by exact rationals. -/
structure Jugador where
  fila : ℤ
  columna : ℤ
  energia_maxima : ℚ
  energia_actual : ℚ
  movimientos_desde_ultima_perdida : ℕ
deriving DecidableEq, Repr

/-- Energy cost of a walking step (jugador.py line 23). -/
def ENERGIA_CAMINAR : ℚ := 1 / 2

/-- Energy cost of a running step (jugador.py line 24). -/
def ENERGIA_CORRER : ℚ := 3 / 2

/-- Jugador.__init__, jugador.py lines 26-39. -/
def Jugador.nuevo (fila columna : ℤ) (energia_maxima : ℚ := 100) : Jugador :=
  ⟨fila, columna, energia_maxima, energia_maxima, 0⟩

/-- Jugador.puede_correr, jugador.py lines 145-152. -/
def Jugador.puede_correr (j : Jugador) : Bool :=
  decide (ENERGIA_CORRER ≤ j.energia_actual)

/-- Jugador.consumir_energia, jugador.py lines 154-170: refuses non-positive
amounts and amounts above the current stamina, otherwise subtracts (clamped
at zero) and reports success. -/
def Jugador.consumir_energia (j : Jugador) (cantidad : ℚ) : Jugador × Bool :=
  if cantidad ≤ 0 then (j, false)
  else if cantidad ≤ j.energia_actual then
    ({ j with energia_actual := max 0 (j.energia_actual - cantidad) }, true)
  else (j, false)

/-- Jugador._mover, jugador.py lines 102-143: bounds check, escapa-mode
player passability check (the mode is hard-coded at line 121), the stamina
gate for running only, then the position update, the move counter and the
periodic 0.5 percent stamina decay every 5 moves. -/
def Jugador.mover (j : Jugador) (m : Mapa) (nueva_fila nueva_col : ℤ)
    (corriendo : Bool) : Jugador × Bool :=
  if m.es_posicion_valida nueva_fila nueva_col = false then (j, false)
  else if m.es_transitable_por_jugador nueva_fila nueva_col .escapa = false then (j, false)
  else if corriendo = true ∧ j.puede_correr = false then (j, false)
  else
    let j1 := if corriendo = true then (j.consumir_energia ENERGIA_CORRER).1
              else (j.consumir_energia ENERGIA_CAMINAR).1
    let j2 := { j1 with fila := nueva_fila, columna := nueva_col,
                        movimientos_desde_ultima_perdida :=
                          j1.movimientos_desde_ultima_perdida + 1 }
    let j3 := if 5 ≤ j2.movimientos_desde_ultima_perdida then
                { j2 with
                  energia_actual :=
                    max 0 (j2.energia_actual - j2.energia_maxima * (5 / 1000)),
                  movimientos_desde_ultima_perdida := 0 }
              else j2
    (j3, true)

/-- The four public move directions of jugador.py lines 50-100. -/
inductive Direccion where
  | arriba : Direccion
  | abajo : Direccion
  | izquierda : Direccion
  | derecha : Direccion
deriving DecidableEq, Repr

/-- Destination cell of a move in a given direction from the player's cell. -/
def Jugador.destino (j : Jugador) (d : Direccion) : Pos :=
  match d with
  | .arriba => (j.fila - 1, j.columna)
  | .abajo => (j.fila + 1, j.columna)
  | .izquierda => (j.fila, j.columna - 1)
  | .derecha => (j.fila, j.columna + 1)

/-- Jugador.mover_arriba, jugador.py lines 50-61. -/
def Jugador.mover_arriba (j : Jugador) (m : Mapa) (corriendo : Bool := false) :
    Jugador × Bool :=
  j.mover m (j.fila - 1) j.columna corriendo

/-- Jugador.mover_abajo, jugador.py lines 63-74. -/
def Jugador.mover_abajo (j : Jugador) (m : Mapa) (corriendo : Bool := false) :
    Jugador × Bool :=
  j.mover m (j.fila + 1) j.columna corriendo

/-- Jugador.mover_izquierda, jugador.py lines 76-87. -/
def Jugador.mover_izquierda (j : Jugador) (m : Mapa) (corriendo : Bool := false) :
    Jugador × Bool :=
  j.mover m j.fila (j.columna - 1) corriendo

/-- Jugador.mover_derecha, jugador.py lines 89-100. -/
def Jugador.mover_derecha (j : Jugador) (m : Mapa) (corriendo : Bool := false) :
    Jugador × Bool :=
  j.mover m j.fila (j.columna + 1) corriendo

/-- Dispatch a public player move call by direction. -/
def Jugador.mover_dir (j : Jugador) (m : Mapa) (d : Direccion) (corriendo : Bool) :
    Jugador × Bool :=
  match d with
  | .arriba => j.mover_arriba m corriendo
  | .abajo => j.mover_abajo m corriendo
  | .izquierda => j.mover_izquierda m corriendo
  | .derecha => j.mover_derecha m corriendo

lemma mover_dir_eq_mover (j : Jugador) (m : Mapa) (d : Direccion) (corriendo : Bool) :
    j.mover_dir m d corriendo =
      j.mover m (j.destino d).1 (j.destino d).2 corriendo := by
  cases d <;> rfl

/-- Rejection analysis of Jugador._mover: the call fails exactly on an
out-of-bounds destination, a destination the escapa player rule forbids, or a
run without the stamina to run; and a failed call leaves the player intact. -/
lemma mover_rechazo (j : Jugador) (m : Mapa) (nf nc : ℤ) (corriendo : Bool) :
    ((j.mover m nf nc corriendo).2 = false ↔
      (m.es_posicion_valida nf nc = false ∨
        m.es_transitable_por_jugador nf nc .escapa = false ∨
        (corriendo = true ∧ j.puede_correr = false))) ∧
    ((j.mover m nf nc corriendo).2 = false → (j.mover m nf nc corriendo).1 = j) := by
  unfold Jugador.mover
  by_cases h1 : m.es_posicion_valida nf nc = false
  · rw [if_pos h1]
    exact ⟨⟨fun _ => Or.inl h1, fun _ => rfl⟩, fun _ => rfl⟩
  · rw [if_neg h1]
    by_cases h2 : m.es_transitable_por_jugador nf nc .escapa = false
    · rw [if_pos h2]
      exact ⟨⟨fun _ => Or.inr (Or.inl h2), fun _ => rfl⟩, fun _ => rfl⟩
    · rw [if_neg h2]
      by_cases h3 : corriendo = true ∧ j.puede_correr = false
      · rw [if_pos h3]
        exact ⟨⟨fun _ => Or.inr (Or.inr h3), fun _ => rfl⟩, fun _ => rfl⟩
      · rw [if_neg h3]
        constructor
        · constructor
          · intro hfalse
            simp at hfalse
          · intro hcon
            rcases hcon with hc | hc | hc
            · exact absurd hc h1
            · exact absurd hc h2
            · exact absurd hc h3
        · intro hfalse
          simp at hfalse

/-- A successful Jugador._mover call puts the player on the destination cell. -/
lemma mover_exito_posicion (j : Jugador) (m : Mapa) (nf nc : ℤ) (corriendo : Bool)
    (h : (j.mover m nf nc corriendo).2 = true) :
    (j.mover m nf nc corriendo).1.fila = nf ∧
      (j.mover m nf nc corriendo).1.columna = nc := by
  unfold Jugador.mover at h ⊢
  by_cases h1 : m.es_posicion_valida nf nc = false
  · rw [if_pos h1] at h; cases h
  · rw [if_neg h1] at h ⊢
    by_cases h2 : m.es_transitable_por_jugador nf nc .escapa = false
    · rw [if_pos h2] at h; cases h
    · rw [if_neg h2] at h ⊢
      by_cases h3 : corriendo = true ∧ j.puede_correr = false
      · rw [if_pos h3] at h; cases h
      · rw [if_neg h3]
        constructor <;> (simp only; split_ifs <;> rfl)

/-- Trap states, src/modelo/trampa.py lines 9-12. -/
inductive EstadoTrampa where
  | activa : EstadoTrampa
  | inactiva : EstadoTrampa
deriving DecidableEq, Repr

/-- A trap, trampa.py lines 15-35: position plus state, created active. -/
structure Trampa where
  fila : ℤ
  columna : ℤ
  estado : EstadoTrampa
deriving DecidableEq, Repr

/-- Trampa.__init__, trampa.py lines 23-35. -/
def Trampa.nueva (fila columna : ℤ) : Trampa :=
  ⟨fila, columna, .activa⟩

/-- Trampa.obtener_posicion, trampa.py lines 37-44. -/
def Trampa.obtener_posicion (t : Trampa) : Pos :=
  (t.fila, t.columna)

/-- Trampa.esta_activa, trampa.py lines 46-53. -/
def Trampa.esta_activa (t : Trampa) : Bool :=
  t.estado = .activa

/-- Enemy states, src/modelo/enemigo.py lines 18-24. -/
inductive EstadoEnemigo where
  | en_spawn : EstadoEnemigo
  | saliendo_spawn : EstadoEnemigo
  | activo : EstadoEnemigo
  | muerto : EstadoEnemigo
  | esperando_respawn : EstadoEnemigo
deriving DecidableEq, Repr

/-- The enemy fields relevant to movement, death and respawn,
enemigo.py lines 34-69 (velocity bookkeeping omitted: the claims below are
about single update steps, not the timing throttle). -/
structure Enemigo where
  fila : ℤ
  columna : ℤ
  estado : EstadoEnemigo
  tiempo_respawn : ℚ
  tiempo_restante_respawn : ℚ
deriving DecidableEq, Repr

/-- Enemigo.obtener_posicion, enemigo.py lines 71-78. -/
def Enemigo.obtener_posicion (e : Enemigo) : Pos :=
  (e.fila, e.columna)

/-- Enemigo.matar, enemigo.py lines 164-173: switch to MUERTO and arm the
respawn timer with the configured delay. -/
def Enemigo.matar (e : Enemigo) : Enemigo :=
  { e with estado := .muerto, tiempo_restante_respawn := e.tiempo_respawn }

/-- Enemigo.esta_vivo, enemigo.py lines 175-182. -/
def Enemigo.esta_vivo (e : Enemigo) : Bool :=
  e.estado = .activo ∨ e.estado = .en_spawn ∨ e.estado = .saliendo_spawn

/-- The trap manager, trampa.py lines 69-95 (the unused last-placement time is
omitted; cooldown is handled by the mode controllers, line 99 comment). -/
structure GestorTrampas where
  trampas : List Trampa
  max_trampas_activas : ℕ
deriving DecidableEq, Repr

/-- GestorTrampas.colocar_trampa, trampa.py lines 115-141: refuse when the
active-trap count is at the cap or an active trap already sits on the cell,
otherwise append a fresh active trap. -/
def GestorTrampas.colocar_trampa (g : GestorTrampas) (fila columna : ℤ)
    (_tiempo_actual : ℚ) : GestorTrampas × Bool :=
  if g.max_trampas_activas ≤ (g.trampas.filter (fun t => t.esta_activa)).length then
    (g, false)
  else if g.trampas.any (fun t =>
      decide (t.obtener_posicion = (fila, columna)) && t.esta_activa) then
    (g, false)
  else
    ({ g with trampas := g.trampas ++ [Trampa.nueva fila columna] }, true)

/-- The inner scan of GestorTrampas.verificar_colisiones_enemigos
(trampa.py lines 176-193): walk the enemy list, skip dead enemies, and kill
the first live enemy standing exactly on the trap cell; `none` when no live
enemy matches. -/
def matarPrimerEnemigoEn (pos : Pos) : List Enemigo → Option (List Enemigo)
  | [] => none
  | e :: es =>
    if e.esta_vivo = true ∧ e.obtener_posicion = pos then
      some (e.matar :: es)
    else
      match matarPrimerEnemigoEn pos es with
      | some es2 => some (e :: es2)
      | none => none

/-- The sweep over the active-trap snapshot (trampa.py lines 167-202).  In the
source each trap that kills is put on trampas_a_desactivar, deactivated after
the sweep, and then every inactive trap is pruned from self.trampas; since
the snapshot is taken before the sweep and the scans only read the enemy
list, this equals dropping each firing trap as it fires, which is how the
sweep is written here.  Returns (surviving traps, updated enemies, kills). -/
def barridoTrampas : List Trampa → List Enemigo → List Trampa × List Enemigo × ℕ
  | [], enemigos => ([], enemigos, 0)
  | t :: ts, enemigos =>
    match matarPrimerEnemigoEn t.obtener_posicion enemigos with
    | some enemigos2 =>
      let r := barridoTrampas ts enemigos2
      (r.1, r.2.1, r.2.2 + 1)
    | none =>
      let r := barridoTrampas ts enemigos
      (t :: r.1, r.2.1, r.2.2)

/-- GestorTrampas.verificar_colisiones_enemigos, trampa.py lines 152-202:
sweep the snapshot of active traps over the enemy list, then keep only the
traps that remain active.  Returns the updated manager, the updated enemy
list and the number of enemies killed in this call. -/
def GestorTrampas.verificar_colisiones_enemigos (g : GestorTrampas)
    (enemigos : List Enemigo) : GestorTrampas × List Enemigo × ℕ :=
  let r := barridoTrampas (g.trampas.filter (fun t => t.esta_activa)) enemigos
  ({ g with trampas := r.1 }, r.2.1, r.2.2)

/-- Characterisation of the inner scan: success returns the list with exactly
the first live position-matching enemy replaced by its killed copy. -/
lemma matarPrimer_some {pos : Pos} {es es2 : List Enemigo}
    (h : matarPrimerEnemigoEn pos es = some es2) :
    ∃ (l r : List Enemigo) (e : Enemigo),
      es = l ++ e :: r ∧ es2 = l ++ e.matar :: r ∧
      e.esta_vivo = true ∧ e.obtener_posicion = pos ∧
      ∀ x ∈ l, ¬(x.esta_vivo = true ∧ x.obtener_posicion = pos) := by
  induction es generalizing es2 with
  | nil => cases h
  | cons e es ih =>
    rw [matarPrimerEnemigoEn] at h
    by_cases hc : e.esta_vivo = true ∧ e.obtener_posicion = pos
    · rw [if_pos hc] at h
      exact ⟨[], es, e, rfl, by simpa using (Option.some_injective _ h).symm,
        hc.1, hc.2, by simp⟩
    · rw [if_neg hc] at h
      match hrec : matarPrimerEnemigoEn pos es with
      | some es3 =>
        rw [hrec] at h
        obtain ⟨l, r, e2, h1, h2, h3, h4, h5⟩ := ih hrec
        refine ⟨e :: l, r, e2, by rw [h1]; rfl, ?_, h3, h4, ?_⟩
        · have : es2 = e :: es3 := (Option.some_injective _ h).symm
          rw [this, h2]; rfl
        · intro x hx
          rcases List.mem_cons.mp hx with hxe | hxl
          · exact hxe ▸ hc
          · exact h5 x hxl
      | none => rw [hrec] at h; cases h

/-- Failure of the inner scan means no live enemy sits on the trap cell. -/
lemma matarPrimer_none {pos : Pos} {es : List Enemigo}
    (h : matarPrimerEnemigoEn pos es = none) :
    ∀ x ∈ es, ¬(x.esta_vivo = true ∧ x.obtener_posicion = pos) := by
  induction es with
  | nil => intro x hx; cases hx
  | cons e es ih =>
    rw [matarPrimerEnemigoEn] at h
    by_cases hc : e.esta_vivo = true ∧ e.obtener_posicion = pos
    · rw [if_pos hc] at h; cases h
    · rw [if_neg hc] at h
      intro x hx
      rcases List.mem_cons.mp hx with hxe | hxl
      · exact hxe ▸ hc
      · match hrec : matarPrimerEnemigoEn pos es with
        | some es3 => rw [hrec] at h; cases h
        | none => exact ih hrec x hxl

lemma matar_no_vivo (e : Enemigo) : e.matar.esta_vivo = false := by
  simp [Enemigo.matar, Enemigo.esta_vivo]

lemma matar_posicion (e : Enemigo) : e.matar.obtener_posicion = e.obtener_posicion := rfl

/-- Number of dead enemies in a list. -/
def muertosCount (es : List Enemigo) : ℕ :=
  (es.filter (fun e => e.esta_vivo = false)).length

lemma matarPrimer_muertos {pos : Pos} {es es2 : List Enemigo}
    (h : matarPrimerEnemigoEn pos es = some es2) :
    muertosCount es2 = muertosCount es + 1 := by
  obtain ⟨l, r, e, h1, h2, h3, _, _⟩ := matarPrimer_some h
  subst h1; subst h2
  simp only [muertosCount, List.filter_append, List.length_append]
  simp [h3, matar_no_vivo]
  omega

/-- The outcome of killing the matched enemy, as a pointwise relation between
the old and the new enemy list. -/
lemma matarPrimer_forall2 {pos : Pos} {es es2 : List Enemigo}
    (h : matarPrimerEnemigoEn pos es = some es2) :
    List.Forall₂ (fun e e2 => e2 = e ∨
      (e.esta_vivo = true ∧ e2 = e.matar ∧ pos = e.obtener_posicion)) es es2 := by
  obtain ⟨l, r, e, h1, h2, h3, h4, h5⟩ := matarPrimer_some h
  subst h1; subst h2
  clear h h5
  induction l with
  | nil =>
    exact List.Forall₂.cons (Or.inr ⟨h3, rfl, h4.symm⟩)
      (List.forall₂_same.mpr (fun x _ => Or.inl rfl))
  | cons a l ihl => exact List.Forall₂.cons (Or.inl rfl) ihl

/-- Pointwise kill-or-unchanged relation produced by sweeping `ts`. -/
def RelBarrido (ts : List Trampa) (e e2 : Enemigo) : Prop :=
  e2 = e ∨ (e.esta_vivo = true ∧ e2 = e.matar ∧
    ∃ t ∈ ts, t.obtener_posicion = e.obtener_posicion)

lemma forall2_comp_matar {t : Trampa} {ts : List Trampa} :
    ∀ {es es2 fin : List Enemigo},
      List.Forall₂ (fun e e2 => e2 = e ∨
        (e.esta_vivo = true ∧ e2 = e.matar ∧
          t.obtener_posicion = e.obtener_posicion)) es es2 →
      List.Forall₂ (RelBarrido ts) es2 fin →
      List.Forall₂ (RelBarrido (t :: ts)) es fin := by
  intro es es2 fin h12
  induction h12 generalizing fin with
  | nil =>
    intro h2f
    cases h2f
    exact List.Forall₂.nil
  | cons hhead htail ih =>
    intro h2f
    cases h2f with
    | cons hfhead hftail =>
      refine List.Forall₂.cons ?_ (ih hftail)
      rcases hhead with heq | ⟨hvivo, hkill, hpos⟩
      · subst heq
        rcases hfhead with heq2 | ⟨hvivo2, hkill2, t2, ht2, hpos2⟩
        · exact Or.inl heq2
        · exact Or.inr ⟨hvivo2, hkill2, t2, List.mem_cons_of_mem _ ht2, hpos2⟩
      · subst hkill
        rcases hfhead with heq2 | ⟨hvivo2, _, _⟩
        · exact Or.inr ⟨hvivo, heq2, t, List.mem_cons_self _ _, hpos⟩
        · rw [matar_no_vivo] at hvivo2; cases hvivo2

/-- Pointwise effect of the whole sweep on the enemy list: every enemy is
either untouched or was live, standing on one of the swept traps, and got
killed in place. -/
lemma barrido_enemigos (ts : List Trampa) (es : List Enemigo) :
    List.Forall₂ (RelBarrido ts) es (barridoTrampas ts es).2.1 := by
  induction ts generalizing es with
  | nil => exact List.forall₂_same.mpr (fun x _ => Or.inl rfl)
  | cons t ts ih =>
    rw [barridoTrampas]
    match hscan : matarPrimerEnemigoEn t.obtener_posicion es with
    | some es2 =>
      have h12 : List.Forall₂ (fun e e2 => e2 = e ∨
          (e.esta_vivo = true ∧ e2 = e.matar ∧
            t.obtener_posicion = e.obtener_posicion)) es es2 :=
        matarPrimer_forall2 hscan
      exact forall2_comp_matar h12 (ih es2)
    | none =>
      simp only
      exact (ih es).imp (fun e e2 hr => by
        rcases hr with heq | ⟨hv, hk, t2, ht2, hp⟩
        · exact Or.inl heq
        · exact Or.inr ⟨hv, hk, t2, List.mem_cons_of_mem _ ht2, hp⟩)

/-- Every trap surviving the sweep was part of the swept snapshot. -/
lemma barrido_trampas_sub (ts : List Trampa) (es : List Enemigo) :
    ∀ x ∈ (barridoTrampas ts es).1, x ∈ ts := by
  induction ts generalizing es with
  | nil => intro x hx; cases hx
  | cons t ts ih =>
    rw [barridoTrampas]
    match hscan : matarPrimerEnemigoEn t.obtener_posicion es with
    | some es2 =>
      intro x hx
      exact List.mem_cons_of_mem _ (ih es2 x hx)
    | none =>
      intro x hx
      rcases List.mem_cons.mp hx with hxt | hxr
      · exact hxt ▸ List.mem_cons_self _ _
      · exact List.mem_cons_of_mem _ (ih es x hxr)

/-- Trap bookkeeping: surviving traps plus kills account for the snapshot. -/
lemma barrido_cuenta (ts : List Trampa) (es : List Enemigo) :
    (barridoTrampas ts es).1.length + (barridoTrampas ts es).2.2 = ts.length := by
  induction ts generalizing es with
  | nil => rfl
  | cons t ts ih =>
    rw [barridoTrampas]
    match hscan : matarPrimerEnemigoEn t.obtener_posicion es with
    | some es2 => simp only [List.length_cons]; rw [← ih es2]; omega
    | none => simp only [List.length_cons]; rw [← ih es]; omega

/-- Kill bookkeeping: the returned count equals the increase in dead enemies. -/
lemma barrido_muertos (ts : List Trampa) (es : List Enemigo) :
    muertosCount (barridoTrampas ts es).2.1 = muertosCount es + (barridoTrampas ts es).2.2 := by
  induction ts generalizing es with
  | nil => rfl
  | cons t ts ih =>
    rw [barridoTrampas]
    match hscan : matarPrimerEnemigoEn t.obtener_posicion es with
    | some es2 =>
      simp only
      rw [ih es2, matarPrimer_muertos hscan]
      omega
    | none => simp only; rw [ih es]

/-- Enemigo._mover, enemigo.py lines 132-162: bounds check, mode-aware enemy
passability check, then the position update. -/
def Enemigo.mover (e : Enemigo) (m : Mapa) (nueva_fila nueva_col : ℤ)
    (modo : Modo := .escapa) : Enemigo × Bool :=
  if m.es_posicion_valida nueva_fila nueva_col = false then (e, false)
  else if m.es_transitable_por_enemigo nueva_fila nueva_col modo = false then (e, false)
  else ({ e with fila := nueva_fila, columna := nueva_col }, true)

/-- Destination of an enemy move in a given direction. -/
def Enemigo.destino (e : Enemigo) (d : Direccion) : Pos :=
  match d with
  | .arriba => (e.fila - 1, e.columna)
  | .abajo => (e.fila + 1, e.columna)
  | .izquierda => (e.fila, e.columna - 1)
  | .derecha => (e.fila, e.columna + 1)

/-- Enemigo.mover_arriba/abajo/izquierda/derecha (enemigo.py lines 80-130),
dispatched by direction. -/
def Enemigo.mover_dir (e : Enemigo) (m : Mapa) (d : Direccion)
    (modo : Modo := .escapa) : Enemigo × Bool :=
  match d with
  | .arriba => e.mover m (e.fila - 1) e.columna modo
  | .abajo => e.mover m (e.fila + 1) e.columna modo
  | .izquierda => e.mover m e.fila (e.columna - 1) modo
  | .derecha => e.mover m e.fila (e.columna + 1) modo

/-- Manhattan distance |Δfila| + |Δcolumna| used by the fallback heuristics. -/
def manhattan (a b : Pos) : ℤ :=
  |a.1 - b.1| + |a.2 - b.2|

/-- Dictionary lookup padre.get(actual) on the BFS parent map; the keys are
unique because a cell gets a parent only when first visited. -/
def buscarPadre : List (Pos × Pos) → Pos → Option Pos
  | [], _ => none
  | par :: resto, c => if par.1 = c then some par.2 else buscarPadre resto c

/-- Path reconstruction walk of enemigo.py lines 418-424: follow parents from
`actual` until a cell with no parent, collecting the cells.  The fuel bounds
the walk; the BFS invariants below show it never runs out. -/
def cadenaPadre (padre : List (Pos × Pos)) : ℕ → Pos → List Pos
  | 0, actual => [actual]
  | fuel + 1, actual =>
    match buscarPadre padre actual with
    | some p => actual :: cadenaPadre padre fuel p
    | none => [actual]

/-- camino[::-1] of enemigo.py line 425: the parent walk from the target,
reversed to run from the BFS origin to the target. -/
def reconstruirCamino (padre : List (Pos × Pos)) (objetivo : Pos) : List Pos :=
  (cadenaPadre padre (padre.length + 1) objetivo).reverse

/-- Neighbour exploration round of the path-building BFS (enemigo.py lines
427-441): like `expandir`, but also records the popped cell as the parent of
each newly visited neighbour. -/
def expandirP (pass : Pos → Bool) (alto ancho : ℤ) (pos : Pos) :
    List (ℤ × ℤ) → List Pos × List Pos × List (Pos × Pos) →
      List Pos × List Pos × List (Pos × Pos)
  | [], s => s
  | d :: ds, (cola, visitado, padre) =>
    let n : Pos := (pos.1 + d.1, pos.2 + d.2)
    if enLimites alto ancho n ∧ n ∉ visitado ∧ pass n = true then
      expandirP pass alto ancho pos ds (cola ++ [n], n :: visitado, padre ++ [(n, pos)])
    else
      expandirP pass alto ancho pos ds (cola, visitado, padre)

/-- The path-building BFS while loop of enemigo.py lines 412-444: pop, return
the reconstructed path on reaching the target, else explore neighbours. -/
def bfsPathLoop (pass : Pos → Bool) (alto ancho : ℤ) (objetivo : Pos) :
    ℕ → List Pos → List Pos → List (Pos × Pos) → Option (List Pos)
  | 0, _, _, _ => none
  | _ + 1, [], _, _ => none
  | fuel + 1, pos :: resto, visitado, padre =>
    if pos = objetivo then some (reconstruirCamino padre objetivo)
    else
      let s := expandirP pass alto ancho pos direcciones (resto, visitado, padre)
      bfsPathLoop pass alto ancho objetivo fuel s.1 s.2.1 s.2.2

/-- Enemigo._encontrar_camino_bfs_escapa, enemigo.py lines 379-444: shortest
path for the enemy under escapa-mode passability, as a list of cells from
`inicio` to `destino`, or none. -/
def encontrar_camino_bfs_escapa (m : Mapa) (inicio destino : Pos) :
    Option (List Pos) :=
  if inicio = destino then some [inicio]
  else if m.es_transitable_por_enemigo inicio.1 inicio.2 .escapa = false then none
  else if m.es_transitable_por_enemigo destino.1 destino.2 .escapa = false then none
  else
    bfsPathLoop (fun p => m.es_transitable_por_enemigo p.1 p.2 .escapa)
      m.alto m.ancho destino ((celdas m.alto m.ancho).card + 2) [inicio] [inicio] []

/-- Enemigo._obtener_direccion_hacia, enemigo.py lines 665-688. -/
def obtener_direccion_hacia (desde hacia : Pos) : Option Direccion :=
  if hacia.1 - desde.1 < 0 then some .arriba
  else if 0 < hacia.1 - desde.1 then some .abajo
  else if hacia.2 - desde.2 < 0 then some .izquierda
  else if 0 < hacia.2 - desde.2 then some .derecha
  else none

/-- Iteration order of the fallback loop (enemigo.py lines 465-470). -/
def ordenDirecciones : List Direccion :=
  [.arriba, .abajo, .izquierda, .derecha]

/-- Manhattan distance to the player after trying one direction. -/
def distTras (e : Enemigo) (m : Mapa) (jugador_pos : Pos) (d : Direccion) : ℤ :=
  manhattan jugador_pos ((e.mover_dir m d .escapa).1.obtener_posicion)

/-- One iteration of the fallback loop body (enemigo.py lines 472-489): probe
the move, and keep it when it succeeds and strictly lowers the best distance. -/
def pasoSimple (e : Enemigo) (m : Mapa) (jugador_pos : Pos)
    (acc : Option Direccion × ℤ) (d : Direccion) : Option Direccion × ℤ :=
  if (e.mover_dir m d .escapa).2 = true ∧ distTras e m jugador_pos d < acc.2 then
    (some d, distTras e m jugador_pos d)
  else acc

/-- Enemigo._perseguir_jugador_simple, enemigo.py lines 446-491: try the four
moves in order (the source performs each and reverts the position, so every
probe starts from the same cell), keep the direction that strictly lowers the
Manhattan distance to the player below the best so far. -/
def Enemigo.perseguir_jugador_simple (e : Enemigo) (m : Mapa)
    (jugador_pos : Pos) : Option Direccion :=
  let enemigo_pos := e.obtener_posicion
  let distancia_actual := manhattan jugador_pos enemigo_pos
  (ordenDirecciones.foldl (pasoSimple e m jugador_pos)
    ((none : Option Direccion), distancia_actual)).1

/-- Enemigo._perseguir_jugador, enemigo.py lines 340-377: BFS towards the
player; take the first step of a path of length at least two, otherwise fall
back to the greedy heuristic; apply the chosen move with escapa rules. -/
def Enemigo.perseguir_jugador (e : Enemigo) (m : Mapa) (jugador_pos : Pos) :
    Enemigo :=
  let enemigo_pos := e.obtener_posicion
  let camino := encontrar_camino_bfs_escapa m enemigo_pos jugador_pos
  let mejor_movimiento : Option Direccion :=
    match camino with
    | some c =>
      if 2 ≤ c.length then obtener_direccion_hacia enemigo_pos (c.getD 1 enemigo_pos)
      else e.perseguir_jugador_simple m jugador_pos
    | none => e.perseguir_jugador_simple m jugador_pos
  match mejor_movimiento with
  | some d => (e.mover_dir m d .escapa).1
  | none => e

lemma buscarPadre_append_some {padre : List (Pos × Pos)} {c p : Pos}
    (l2 : List (Pos × Pos)) (h : buscarPadre padre c = some p) :
    buscarPadre (padre ++ l2) c = some p := by
  induction padre with
  | nil => cases h
  | cons par resto ih =>
    rw [buscarPadre] at h
    rw [List.cons_append, buscarPadre]
    by_cases hc : par.1 = c
    · rw [if_pos hc] at h ⊢; exact h
    · rw [if_neg hc] at h ⊢; exact ih h

lemma buscarPadre_append_none {padre : List (Pos × Pos)} {c : Pos}
    (l2 : List (Pos × Pos)) (h : buscarPadre padre c = none) :
    buscarPadre (padre ++ l2) c = buscarPadre l2 c := by
  induction padre with
  | nil => rfl
  | cons par resto ih =>
    rw [buscarPadre] at h
    rw [List.cons_append, buscarPadre]
    by_cases hc : par.1 = c
    · rw [if_pos hc] at h; cases h
    · rw [if_neg hc] at h ⊢; exact ih h

lemma buscarPadre_none_of_no_key {padre : List (Pos × Pos)} {c : Pos}
    (h : ∀ par ∈ padre, par.1 ≠ c) : buscarPadre padre c = none := by
  induction padre with
  | nil => rfl
  | cons par resto ih =>
    rw [buscarPadre, if_neg (h par (List.mem_cons_self _ _))]
    exact ih (fun q hq => h q (List.mem_cons_of_mem _ hq))

lemma buscarPadre_some_mem {padre : List (Pos × Pos)} {c p : Pos}
    (h : buscarPadre padre c = some p) : (c, p) ∈ padre := by
  induction padre with
  | nil => cases h
  | cons par resto ih =>
    rw [buscarPadre] at h
    by_cases hc : par.1 = c
    · rw [if_pos hc] at h
      have : par = (c, p) := by
        cases par
        simp only at hc
        simp only [Option.some_injective _ (by exact h : some _ = some p)] at *
        simp [hc, Option.some_injective _ h]
      exact this ▸ List.mem_cons_self _ _
    · rw [if_neg hc] at h
      exact List.mem_cons_of_mem _ (ih h)

/-- Ancestor chains in the parent map: x reaches the BFS origin in k steps. -/
inductive CadenaHasta (padre : List (Pos × Pos)) (inicio : Pos) : Pos → ℕ → Prop
  | raiz : CadenaHasta padre inicio inicio 0
  | paso {c p : Pos} {n : ℕ} : buscarPadre padre c = some p →
      CadenaHasta padre inicio p n → CadenaHasta padre inicio c (n + 1)

lemma cadena_extiende {padre l2 : List (Pos × Pos)} {inicio x : Pos} {k : ℕ}
    (h : CadenaHasta padre inicio x k) : CadenaHasta (padre ++ l2) inicio x k := by
  induction h with
  | raiz => exact CadenaHasta.raiz
  | paso hlook _ ih => exact CadenaHasta.paso (buscarPadre_append_some l2 hlook) ih

/-- The parent walk of a cell with a k-step ancestor chain terminates at the
BFS origin, visiting the chain; the walk list has length k + 1. -/
lemma cadenaPadre_spec {padre : List (Pos × Pos)} {inicio : Pos}
    (hini : buscarPadre padre inicio = none) :
    ∀ {k : ℕ} {x : Pos} {fuel : ℕ}, CadenaHasta padre inicio x k → k < fuel →
      ∃ resto, cadenaPadre padre fuel x = x :: resto ∧ resto.length = k ∧
        (x :: resto).getLast? = some inicio ∧
        List.Chain' (fun a b => buscarPadre padre a = some b) (x :: resto) := by
  intro k x fuel h
  induction h generalizing fuel with
  | raiz =>
    intro hf
    cases fuel with
    | zero => omega
    | succ f =>
      refine ⟨[], ?_, rfl, rfl, List.chain'_singleton _⟩
      simp [cadenaPadre, hini]
  | @paso c p n hlook hchain ih =>
    intro hf
    cases fuel with
    | zero => omega
    | succ f =>
      obtain ⟨resto, h1, h2, h3, h4⟩ := ih (show n < f by omega)
      refine ⟨p :: resto, ?_, by simp [h2], ?_, ?_⟩
      · simp [cadenaPadre, hlook, h1]
      · rw [List.getLast?_cons_cons]
        exact h3
      · exact List.chain'_cons.mpr ⟨hlook, h4⟩

/-- Invariant preservation through one neighbour round of the path BFS: every
parent edge is a passable in-bounds step, parent keys are visited, every
visited cell has a bounded ancestor chain to the origin, the origin has no
parent, and the queue stays inside the visited set. -/
lemma expandirP_inv (pass : Pos → Bool) (alto ancho : ℤ) (inicio pos : Pos)
    (dirs : List (ℤ × ℤ)) (hdirs : ∀ d ∈ dirs, d ∈ direcciones) :
    ∀ (cola visitado : List Pos) (padre : List (Pos × Pos)),
      pos ∈ visitado →
      (∀ par ∈ padre, (∃ d ∈ direcciones, par.1 = (par.2.1 + d.1, par.2.2 + d.2)) ∧
        enLimites alto ancho par.1 ∧ pass par.1 = true) →
      (∀ par ∈ padre, par.1 ∈ visitado) →
      inicio ∈ visitado →
      (∀ x ∈ visitado, ∃ k ≤ padre.length, CadenaHasta padre inicio x k) →
      buscarPadre padre inicio = none →
      (∀ x ∈ cola, x ∈ visitado) →
      ((∀ par ∈ (expandirP pass alto ancho pos dirs (cola, visitado, padre)).2.2,
          (∃ d ∈ direcciones, par.1 = (par.2.1 + d.1, par.2.2 + d.2)) ∧
          enLimites alto ancho par.1 ∧ pass par.1 = true) ∧
       (∀ par ∈ (expandirP pass alto ancho pos dirs (cola, visitado, padre)).2.2,
          par.1 ∈ (expandirP pass alto ancho pos dirs (cola, visitado, padre)).2.1) ∧
       inicio ∈ (expandirP pass alto ancho pos dirs (cola, visitado, padre)).2.1 ∧
       (∀ x ∈ (expandirP pass alto ancho pos dirs (cola, visitado, padre)).2.1,
          ∃ k ≤ (expandirP pass alto ancho pos dirs (cola, visitado, padre)).2.2.length,
            CadenaHasta (expandirP pass alto ancho pos dirs (cola, visitado, padre)).2.2
              inicio x k) ∧
       buscarPadre (expandirP pass alto ancho pos dirs (cola, visitado, padre)).2.2
         inicio = none ∧
       (∀ x ∈ (expandirP pass alto ancho pos dirs (cola, visitado, padre)).1,
          x ∈ (expandirP pass alto ancho pos dirs (cola, visitado, padre)).2.1)) := by
  induction dirs with
  | nil =>
    intro cola visitado padre _ hJ1 hJ2 hJ3 hJ4 hJ5 hJ6
    exact ⟨hJ1, hJ2, hJ3, hJ4, hJ5, hJ6⟩
  | cons d ds ih =>
    intro cola visitado padre hpos hJ1 hJ2 hJ3 hJ4 hJ5 hJ6
    have hdmem : d ∈ direcciones := hdirs d (List.mem_cons_self _ _)
    have hds : ∀ d2 ∈ ds, d2 ∈ direcciones :=
      fun d2 hd2 => hdirs d2 (List.mem_cons_of_mem _ hd2)
    rw [expandirP]
    by_cases hcond : enLimites alto ancho (pos.1 + d.1, pos.2 + d.2) ∧
        (pos.1 + d.1, pos.2 + d.2) ∉ visitado ∧ pass (pos.1 + d.1, pos.2 + d.2) = true
    · rw [if_pos hcond]
      set n : Pos := (pos.1 + d.1, pos.2 + d.2) with hn
      have hnkey : buscarPadre padre n = none :=
        buscarPadre_none_of_no_key (fun par hpar hcon =>
          hcond.2.1 (hcon ▸ hJ2 par hpar))
      have hnini : n ≠ inicio := fun hcon => hcond.2.1 (hcon ▸ hJ3)
      refine ih hds (cola ++ [n]) (n :: visitado) (padre ++ [(n, pos)])
        (List.mem_cons_of_mem _ hpos) ?_ ?_ (List.mem_cons_of_mem _ hJ3) ?_ ?_ ?_
      · intro par hpar
        rcases List.mem_append.mp hpar with hold | hnew
        · exact hJ1 par hold
        · have : par = (n, pos) := List.mem_singleton.mp hnew
          subst this
          exact ⟨⟨d, hdmem, rfl⟩, hcond.1, hcond.2.2⟩
      · intro par hpar
        rcases List.mem_append.mp hpar with hold | hnew
        · exact List.mem_cons_of_mem _ (hJ2 par hold)
        · have : par = (n, pos) := List.mem_singleton.mp hnew
          subst this
          exact List.mem_cons_self _ _
      · intro x hx
        rcases List.mem_cons.mp hx with hxn | hxv
        · subst hxn
          obtain ⟨k, hkle, hch⟩ := hJ4 pos hpos
          refine ⟨k + 1, ?_, ?_⟩
          · simp only [List.length_append, List.length_singleton]
            omega
          · refine CadenaHasta.paso ?_ (cadena_extiende hch)
            rw [buscarPadre_append_none _ hnkey]
            simp [buscarPadre]
        · obtain ⟨k, hkle, hch⟩ := hJ4 x hxv
          refine ⟨k, ?_, cadena_extiende hch⟩
          simp only [List.length_append, List.length_singleton]
          omega
      · rw [buscarPadre_append_none _ hJ5]
        simp [buscarPadre, hnini]
      · intro x hx
        rcases List.mem_append.mp hx with hold | hnew
        · exact List.mem_cons_of_mem _ (hJ6 x hold)
        · exact (List.mem_singleton.mp hnew) ▸ List.mem_cons_self _ _
    · rw [if_neg hcond]
      exact ih hds cola visitado padre hpos hJ1 hJ2 hJ3 hJ4 hJ5 hJ6

/-- Any path returned by the path BFS loop (target distinct from the origin,
invariants in force) starts at the origin, and its second cell is an
in-bounds passable neighbour of the origin. -/
lemma bfsPathLoop_spec {pass : Pos → Bool} {alto ancho : ℤ} {inicio objetivo : Pos}
    (hne : objetivo ≠ inicio) :
    ∀ (fuel : ℕ) (cola visitado : List Pos) (padre : List (Pos × Pos))
      (camino : List Pos),
      (∀ par ∈ padre, (∃ d ∈ direcciones, par.1 = (par.2.1 + d.1, par.2.2 + d.2)) ∧
        enLimites alto ancho par.1 ∧ pass par.1 = true) →
      (∀ par ∈ padre, par.1 ∈ visitado) →
      inicio ∈ visitado →
      (∀ x ∈ visitado, ∃ k ≤ padre.length, CadenaHasta padre inicio x k) →
      buscarPadre padre inicio = none →
      (∀ x ∈ cola, x ∈ visitado) →
      bfsPathLoop pass alto ancho objetivo fuel cola visitado padre = some camino →
      ∃ x1 resto2, camino = inicio :: x1 :: resto2 ∧
        (∃ d ∈ direcciones, x1 = (inicio.1 + d.1, inicio.2 + d.2)) ∧
        enLimites alto ancho x1 ∧ pass x1 = true := by
  intro fuel
  induction fuel with
  | zero =>
    intro cola visitado padre camino _ _ _ _ _ _ h
    cases h
  | succ fuel ih =>
    intro cola visitado padre camino hJ1 hJ2 hJ3 hJ4 hJ5 hJ6 h
    match cola with
    | [] => cases h
    | pos :: resto =>
      by_cases hobj : pos = objetivo
      · rw [bfsPathLoop, if_pos hobj] at h
        have hov : objetivo ∈ visitado := hobj ▸ hJ6 pos (List.mem_cons_self _ _)
        obtain ⟨k, hkle, hch⟩ := hJ4 objetivo hov
        have hkpos : 0 < k := by
          rcases hch with _ | _
          · exact absurd rfl hne
          · omega
        obtain ⟨restoL, heqL, hlenL, hlastL, hchainL⟩ :=
          cadenaPadre_spec hJ5 hch (show k < padre.length + 1 by omega)
        have hcam : camino = (objetivo :: restoL).reverse := by
          have : camino = reconstruirCamino padre objetivo :=
            (Option.some_injective _ h).symm
          rw [this, reconstruirCamino, heqL]
        have hhead : camino.head? = some inicio := by
          rw [hcam, List.head?_reverse]
          exact hlastL
        have hlen2 : 2 ≤ camino.length := by
          rw [hcam, List.length_reverse, List.length_cons, hlenL]
          omega
        have hchainC : List.Chain'
            (flip (fun x y => buscarPadre padre x = some y)) camino := by
          rw [hcam, List.chain'_reverse]
          exact hchainL
        rcases camino with _ | ⟨a, _ | ⟨b, resto2⟩⟩
        · cases hhead
        · simp at hlen2
        · have ha : a = inicio := by simpa using hhead
          subst ha
          have hedge : buscarPadre padre b = some a :=
            (List.chain'_cons.mp hchainC).1
          obtain ⟨hady, hb, hp⟩ := hJ1 (b, a) (buscarPadre_some_mem hedge)
          exact ⟨b, resto2, rfl, hady, hb, hp⟩
      · rw [bfsPathLoop, if_neg hobj] at h
        have hinv := expandirP_inv pass alto ancho inicio pos direcciones
          (fun d hd => hd) resto visitado padre
          (hJ6 pos (List.mem_cons_self _ _)) hJ1 hJ2 hJ3 hJ4 hJ5
          (fun x hx => hJ6 x (List.mem_cons_of_mem _ hx))
        exact ih _ _ _ _ hinv.1 hinv.2.1 hinv.2.2.1 hinv.2.2.2.1
          hinv.2.2.2.2.1 hinv.2.2.2.2.2 h

lemma transitable_enemigo_valida {m : Mapa} {f c : ℤ} {modo : Modo}
    (h : m.es_transitable_por_enemigo f c modo = true) :
    m.es_posicion_valida f c = true := by
  by_contra hval
  rw [Bool.not_eq_true] at hval
  rw [Mapa.es_transitable_por_enemigo, if_pos hval] at h
  cases h

/-- Shape of any path produced by _encontrar_camino_bfs_escapa: either the
degenerate single-cell path when start equals target, or a path whose head is
the start and whose second cell is an adjacent enemy-passable cell. -/
lemma encontrar_camino_some {m : Mapa} {inicio destino : Pos} {camino : List Pos}
    (h : encontrar_camino_bfs_escapa m inicio destino = some camino) :
    (inicio = destino ∧ camino = [inicio]) ∨
    ∃ x1 resto, camino = inicio :: x1 :: resto ∧
      (∃ d ∈ direcciones, x1 = (inicio.1 + d.1, inicio.2 + d.2)) ∧
      m.es_transitable_por_enemigo x1.1 x1.2 .escapa = true := by
  unfold encontrar_camino_bfs_escapa at h
  by_cases heq : inicio = destino
  · rw [if_pos heq] at h
    exact Or.inl ⟨heq, (Option.some_injective _ h).symm⟩
  · rw [if_neg heq] at h
    by_cases h1 : m.es_transitable_por_enemigo inicio.1 inicio.2 .escapa = false
    · rw [if_pos h1] at h; cases h
    · rw [if_neg h1] at h
      by_cases h2 : m.es_transitable_por_enemigo destino.1 destino.2 .escapa = false
      · rw [if_pos h2] at h; cases h
      · rw [if_neg h2] at h
        right
        obtain ⟨x1, resto, hsh, hady, _, hp⟩ :=
          bfsPathLoop_spec (fun hcon => heq hcon.symm) _ _ _ _ _
            (fun par hpar => absurd hpar (List.not_mem_nil _))
            (fun par hpar => absurd hpar (List.not_mem_nil _))
            (List.mem_singleton.mpr rfl)
            (fun x hx => ⟨0, Nat.zero_le _,
              (List.mem_singleton.mp hx) ▸ CadenaHasta.raiz⟩)
            rfl
            (fun x hx => hx) h
        exact ⟨x1, resto, hsh, hady, hp⟩

/-- The direction-conversion of _obtener_direccion_hacia recovers an adjacent
cell: moving in the returned direction from the enemy's cell lands exactly on
that cell. -/
lemma direccion_hacia_adyacente (e : Enemigo) {x1 : Pos}
    (hady : ∃ d ∈ direcciones, x1 = (e.fila + d.1, e.columna + d.2)) :
    ∃ dir : Direccion, obtener_direccion_hacia e.obtener_posicion x1 = some dir ∧
      e.destino dir = x1 := by
  obtain ⟨d, hd, hx⟩ := hady
  subst hx
  simp only [direcciones, List.mem_cons, List.mem_singleton] at hd
  rcases hd with hd | hd | hd | hd | hd
  · subst hd
    exact ⟨.arriba, by norm_num [obtener_direccion_hacia, Enemigo.obtener_posicion],
      by simp [Enemigo.destino, sub_eq_add_neg]⟩
  · subst hd
    exact ⟨.abajo, by norm_num [obtener_direccion_hacia, Enemigo.obtener_posicion],
      by simp [Enemigo.destino]⟩
  · subst hd
    exact ⟨.izquierda, by norm_num [obtener_direccion_hacia, Enemigo.obtener_posicion],
      by simp [Enemigo.destino, sub_eq_add_neg]⟩
  · subst hd
    exact ⟨.derecha, by norm_num [obtener_direccion_hacia, Enemigo.obtener_posicion],
      by simp [Enemigo.destino]⟩
  · cases hd

/-- Moving onto a passable cell succeeds and lands there. -/
lemma enemigo_mover_dir_exito (e : Enemigo) (m : Mapa) (dir : Direccion) (modo : Modo)
    (htrans : m.es_transitable_por_enemigo (e.destino dir).1 (e.destino dir).2 modo = true) :
    (e.mover_dir m dir modo).1.obtener_posicion = e.destino dir ∧
      (e.mover_dir m dir modo).2 = true := by
  have hval := transitable_enemigo_valida htrans
  cases dir <;>
    · simp only [Enemigo.mover_dir, Enemigo.mover, Enemigo.destino] at *
      rw [if_neg (by simp [hval]), if_neg (by simp [htrans])]
      exact ⟨rfl, rfl⟩

/-- The selection fold either keeps its accumulator (no successful candidate
beats it) or yields the first successful candidate attaining the strict
minimum distance. -/
lemma fold_argmin (e : Enemigo) (m : Mapa) (jugador_pos : Pos) :
    ∀ (ds : List Direccion) (m0 : Option Direccion) (v0 : ℤ),
      (ds.foldl (pasoSimple e m jugador_pos) (m0, v0) = (m0, v0) ∧
        ∀ d ∈ ds, (e.mover_dir m d .escapa).2 = true →
          v0 ≤ distTras e m jugador_pos d) ∨
      (∃ pre d post, ds = pre ++ d :: post ∧
        (e.mover_dir m d .escapa).2 = true ∧
        ds.foldl (pasoSimple e m jugador_pos) (m0, v0) =
          (some d, distTras e m jugador_pos d) ∧
        distTras e m jugador_pos d < v0 ∧
        (∀ d2 ∈ pre, (e.mover_dir m d2 .escapa).2 = true →
          distTras e m jugador_pos d < distTras e m jugador_pos d2) ∧
        (∀ d2 ∈ post, (e.mover_dir m d2 .escapa).2 = true →
          distTras e m jugador_pos d ≤ distTras e m jugador_pos d2)) := by
  intro ds
  induction ds with
  | nil =>
    intro m0 v0
    exact Or.inl ⟨rfl, fun d hd => absurd hd (List.not_mem_nil _)⟩
  | cons a ds ih =>
    intro m0 v0
    rw [List.foldl_cons]
    by_cases hstep : (e.mover_dir m a .escapa).2 = true ∧
        distTras e m jugador_pos a < v0
    · rw [show pasoSimple e m jugador_pos (m0, v0) a =
          (some a, distTras e m jugador_pos a) from by
        rw [pasoSimple, if_pos hstep]]
      rcases ih (some a) (distTras e m jugador_pos a) with ⟨hres, hno⟩ |
        ⟨pre, d, post, hsplit, hex, hres, hlt, hpre, hpost⟩
      · refine Or.inr ⟨[], a, ds, rfl, hstep.1, hres, hstep.2,
          fun d2 hd2 => absurd hd2 (List.not_mem_nil _), hno⟩
      · refine Or.inr ⟨a :: pre, d, post, by rw [hsplit]; rfl, hex, hres,
          lt_trans hlt hstep.2, ?_, hpost⟩
        intro d2 hd2 hx2
        rcases List.mem_cons.mp hd2 with hda | hdp
        · exact hda ▸ hlt
        · exact hpre d2 hdp hx2
    · rw [show pasoSimple e m jugador_pos (m0, v0) a = (m0, v0) from by
        rw [pasoSimple, if_neg hstep]]
      rcases ih m0 v0 with ⟨hres, hno⟩ |
        ⟨pre, d, post, hsplit, hex, hres, hlt, hpre, hpost⟩
      · refine Or.inl ⟨hres, ?_⟩
        intro d2 hd2 hx2
        rcases List.mem_cons.mp hd2 with hda | hdp
        · subst hda
          by_contra hcon
          exact hstep ⟨hx2, by omega⟩
        · exact hno d2 hdp hx2
      · refine Or.inr ⟨a :: pre, d, post, by rw [hsplit]; rfl, hex, hres, hlt, ?_, hpost⟩
        intro d2 hd2 hx2
        rcases List.mem_cons.mp hd2 with hda | hdp
        · subst hda
          have hgt : v0 ≤ distTras e m jugador_pos d2 := by
            by_contra hcon
            exact hstep ⟨hx2, by omega⟩
          omega
        · exact hpre d2 hdp hx2

/-- A none answer of the fallback heuristic means no successful move strictly
lowers the Manhattan distance to the player. -/
lemma perseguir_simple_none {e : Enemigo} {m : Mapa} {jugador_pos : Pos}
    (h : e.perseguir_jugador_simple m jugador_pos = none) :
    ∀ d ∈ ordenDirecciones, (e.mover_dir m d .escapa).2 = true →
      manhattan jugador_pos e.obtener_posicion ≤ distTras e m jugador_pos d := by
  have h2 : (ordenDirecciones.foldl (pasoSimple e m jugador_pos)
      ((none : Option Direccion), manhattan jugador_pos e.obtener_posicion)).1 = none := h
  rcases fold_argmin e m jugador_pos ordenDirecciones none
      (manhattan jugador_pos e.obtener_posicion) with ⟨hres, hno⟩ |
    ⟨pre, d, post, hsplit, hex, hres, hlt, hpre, hpost⟩
  · exact hno
  · rw [hres] at h2
    cases h2

/-- A some answer of the fallback heuristic is a successful strictly improving
move, minimal among the successful candidates, and earliest in the iteration
order among the minimisers. -/
lemma perseguir_simple_some {e : Enemigo} {m : Mapa} {jugador_pos : Pos}
    {d : Direccion} (h : e.perseguir_jugador_simple m jugador_pos = some d) :
    (e.mover_dir m d .escapa).2 = true ∧
    distTras e m jugador_pos d < manhattan jugador_pos e.obtener_posicion ∧
    (∀ d2 ∈ ordenDirecciones, (e.mover_dir m d2 .escapa).2 = true →
      distTras e m jugador_pos d ≤ distTras e m jugador_pos d2) ∧
    ∃ pre post, ordenDirecciones = pre ++ d :: post ∧
      ∀ d2 ∈ pre, (e.mover_dir m d2 .escapa).2 = true →
        distTras e m jugador_pos d < distTras e m jugador_pos d2 := by
  have h2 : (ordenDirecciones.foldl (pasoSimple e m jugador_pos)
      ((none : Option Direccion), manhattan jugador_pos e.obtener_posicion)).1 = some d := h
  rcases fold_argmin e m jugador_pos ordenDirecciones none
      (manhattan jugador_pos e.obtener_posicion) with ⟨hres, hno⟩ |
    ⟨pre, d2, post, hsplit, hex, hres, hlt, hpre, hpost⟩
  · rw [hres] at h2
    cases h2
  · rw [hres] at h2
    have hdd : d2 = d := by simpa using h2
    subst hdd
    refine ⟨hex, hlt, ?_, pre, post, hsplit, hpre⟩
    intro d3 hd3 hx3
    rw [hsplit] at hd3
    rcases List.mem_append.mp hd3 with hp | hq
    · exact le_of_lt (hpre d3 hp hx3)
    · rcases List.mem_cons.mp hq with he | hr
      · exact he ▸ le_refl _
      · exact hpost d3 hr hx3

/-- When the BFS yields a path of length at least two, the pursuit step moves
the enemy exactly onto the path's second cell. -/
lemma perseguir_camino_paso {m : Mapa} {e : Enemigo} {jugador_pos : Pos}
    {camino : List Pos}
    (hcam : encontrar_camino_bfs_escapa m e.obtener_posicion jugador_pos = some camino)
    (hlen : 2 ≤ camino.length) :
    (e.perseguir_jugador m jugador_pos).obtener_posicion =
      camino.getD 1 e.obtener_posicion := by
  rcases encontrar_camino_some hcam with ⟨_, hsh⟩ | ⟨x1, resto, hsh, hady, htrans⟩
  · rw [hsh] at hlen
    simp at hlen
  · have hgetD : camino.getD 1 e.obtener_posicion = x1 := by rw [hsh]; rfl
    obtain ⟨dir, hdir, hdest⟩ := direccion_hacia_adyacente e hady
    have hmov := enemigo_mover_dir_exito e m dir .escapa (by rw [hdest]; exact htrans)
    have h0 : e.perseguir_jugador m jugador_pos =
        (match (match encontrar_camino_bfs_escapa m e.obtener_posicion jugador_pos with
          | some c =>
            if 2 ≤ c.length then
              obtener_direccion_hacia e.obtener_posicion (c.getD 1 e.obtener_posicion)
            else e.perseguir_jugador_simple m jugador_pos
          | none => e.perseguir_jugador_simple m jugador_pos) with
          | some d => (e.mover_dir m d Modo.escapa).1
          | none => e) := rfl
    have hper : e.perseguir_jugador m jugador_pos = (e.mover_dir m dir .escapa).1 := by
      rw [h0, hcam]
      simp only
      rw [if_pos hlen, hgetD, hdir]
    rw [hper, hmov.1, hdest, hgetD]

/-- When the BFS yields no path of length at least two, the pursuit step
applies the greedy fallback. -/
lemma perseguir_fallback_eq {m : Mapa} {e : Enemigo} {jugador_pos : Pos}
    (hcond : encontrar_camino_bfs_escapa m e.obtener_posicion jugador_pos = none ∨
      ∃ c, encontrar_camino_bfs_escapa m e.obtener_posicion jugador_pos = some c ∧
        c.length < 2) :
    e.perseguir_jugador m jugador_pos =
      (match e.perseguir_jugador_simple m jugador_pos with
        | some d => (e.mover_dir m d .escapa).1
        | none => e) := by
  have h0 : e.perseguir_jugador m jugador_pos =
      (match (match encontrar_camino_bfs_escapa m e.obtener_posicion jugador_pos with
        | some c =>
          if 2 ≤ c.length then
            obtener_direccion_hacia e.obtener_posicion (c.getD 1 e.obtener_posicion)
          else e.perseguir_jugador_simple m jugador_pos
        | none => e.perseguir_jugador_simple m jugador_pos) with
        | some d => (e.mover_dir m d Modo.escapa).1
        | none => e) := rfl
  rcases hcond with hnone | ⟨c, hsome, hlen⟩
  · rw [h0, hnone]
  · rw [h0, hsome]
    simp only
    rw [if_neg (by omega)]

/-- Concrete grids used to instantiate claim theorems on explicit inputs. -/
def mapaEjC1 : Mapa :=
  ⟨2, 2, [[Tile.liana, Tile.tunel], [Tile.camino, Tile.muro]], (0, 0), [(1, 0)]⟩

def casillasEjC2 : List (List Tile) :=
  [[Tile.camino, Tile.camino, Tile.camino],
   [Tile.camino, Tile.camino, Tile.camino],
   [Tile.camino, Tile.camino, Tile.camino]]

def mapaEjC4 : Mapa := ⟨2, 1, [[Tile.camino, Tile.liana]], (0, 0), [(0, 1)]⟩

def mapaEjC5 : Mapa := ⟨2, 1, [[Tile.camino, Tile.camino]], (0, 0), [(0, 1)]⟩

def mapaEjC10 : Mapa := ⟨2, 1, [[Tile.camino, Tile.tunel]], (0, 0), [(0, 1)]⟩

/-- C1: evaluated through the Grid's passability queries on an in-bounds
cell, Vine and Tunnel passability under escapa is the negation of the same
query under cazador, for both actor classes; Path is passable and Wall
impassable for both actors in both modes. -/
theorem tile_inversion_simetria (m : Mapa) (fila columna : ℤ)
    (h : m.es_posicion_valida fila columna = true) :
    ((casillaEn m.casillas fila columna = .liana ∨
        casillaEn m.casillas fila columna = .tunel) →
      ∀ actor : Actor,
        m.transitable actor fila columna .escapa =
          !(m.transitable actor fila columna .cazador)) ∧
    (casillaEn m.casillas fila columna = .camino →
      ∀ (actor : Actor) (modo : Modo), m.transitable actor fila columna modo = true) ∧
    (casillaEn m.casillas fila columna = .muro →
      ∀ (actor : Actor) (modo : Modo), m.transitable actor fila columna modo = false) := by
  have hval : m.es_posicion_valida fila columna = false ↔ False := by simp [h]
  refine ⟨?_, ?_, ?_⟩
  · rintro (hc | hc) actor <;> cases actor <;>
      simp [Mapa.transitable, Mapa.es_transitable_por_jugador,
        Mapa.es_transitable_por_enemigo, hval, hc, Tile.permite_paso_jugador,
        Tile.permite_paso_enemigo]
  · intro hc actor modo
    cases actor <;> cases modo <;>
      simp [Mapa.transitable, Mapa.es_transitable_por_jugador,
        Mapa.es_transitable_por_enemigo, hval, hc, Tile.permite_paso_jugador,
        Tile.permite_paso_enemigo]
  · intro hc actor modo
    cases actor <;> cases modo <;>
      simp [Mapa.transitable, Mapa.es_transitable_por_jugador,
        Mapa.es_transitable_por_enemigo, hval, hc, Tile.permite_paso_jugador,
        Tile.permite_paso_enemigo]

/-- Witness for C1 at a concrete grid and cell. -/
theorem tile_inversion_simetria_witness :
    mapaEjC1.es_posicion_valida 0 0 = true ∧
    mapaEjC1.transitable .jugador 0 0 .escapa =
      !(mapaEjC1.transitable .jugador 0 0 .cazador) :=
  ⟨by decide, (tile_inversion_simetria mapaEjC1 0 0 (by decide)).1
    (Or.inl (by decide)) .jugador⟩

/-- C2: a generation attempt accepted by the generator's mode-appropriate BFS
verification yields a grid on which every exit is reachable from the start
through cells passable for the player under the generating mode. -/
theorem generador_conectividad (modo : Modo) (ancho alto : ℤ)
    (casillas : List (List Tile)) (inicio : Pos) (salidas : List Pos)
    (hini : enLimites alto ancho inicio)
    (hver : verificacion_generador modo alto ancho casillas inicio salidas = true) :
    ∀ s ∈ salidas,
      AlcanzableActor (Mapa.mk ancho alto casillas inicio salidas) .jugador modo inicio s :=
  generador_verificacion_alcanzable modo ancho alto casillas inicio salidas hini hver

/-- Witness for C2 on a concrete accepted 3 × 3 grid. -/
theorem generador_conectividad_witness :
    verificacion_generador .escapa 3 3 casillasEjC2 (1, 1) [(1, 2)] = true ∧
    AlcanzableActor (Mapa.mk 3 3 casillasEjC2 (1, 1) [(1, 2)]) .jugador .escapa
      (1, 1) (1, 2) :=
  ⟨by decide,
    generador_conectividad .escapa 3 3 casillasEjC2 (1, 1) [(1, 2)] (by decide)
      (by decide) (1, 2) (List.mem_singleton.mpr rfl)⟩

/-- C3: the checkerboard fallback is disconnected even with parity-aligned
start and exit: on the 5 × 5 fallback with start (1,1) and exit (1,3), both
on even-parity cells forced to Path, the player BFS reports no path and the
exit is in fact unreachable, because no two Path cells of a checkerboard are
4-adjacent.  This contradicts the generator's own documented guarantee of a
valid path (generador_mapa.py lines 15-17 and 41-48). -/
theorem fallback_desconectado :
    ((1 + 1) % 2 = 0 ∧ (1 + 3) % 2 = 0) ∧
    (mapa_fallback 5 5 (1, 1) [(1, 3)]).existe_camino_valido (1, 1) (1, 3) = false ∧
    ¬ AlcanzableActor (mapa_fallback 5 5 (1, 1) [(1, 3)]) .jugador .escapa
      (1, 1) (1, 3) := by
  have heval : (mapa_fallback 5 5 (1, 1) [(1, 3)]).existe_camino_valido (1, 1) (1, 3)
      = false := by decide
  refine ⟨by decide, heval, fun hcon => ?_⟩
  have := (existe_camino_valido_iff (mapa_fallback 5 5 (1, 1) [(1, 3)])
    (1, 1) (1, 3)).mpr hcon
  rw [heval] at this
  cases this

/-- C4 counterexample: existe_camino_valido is not the claimed generic
actor-and-mode reachability check: on a Path-Vine pair of cells the enemy
under escapa can reach the Vine cell, but the method (which always applies
the player-escapa rule) answers false. -/
theorem pathexists_no_generico :
    ¬ (∀ (m : Mapa) (actor : Actor) (modo : Modo) (desde hasta : Pos),
        m.existe_camino_valido desde hasta = true ↔
          AlcanzableActor m actor modo desde hasta) := by
  intro hcon
  have halc : AlcanzableActor mapaEjC4 .enemigo .escapa (0, 0) (0, 1) :=
    ⟨by decide, Relation.ReflTransGen.single
      ⟨⟨(0, 1), by decide, by decide⟩, by decide⟩⟩
  have h := (hcon mapaEjC4 .enemigo .escapa (0, 0) (0, 1)).mpr halc
  exact absurd h (by decide)

/-- C4 amended: existe_camino_valido takes no actor or mode; it answers true
exactly when the destination is reachable from the source through
4-connected cells passable for the player under escapa mode. -/
theorem existe_camino_valido_correcto (m : Mapa) (desde hasta : Pos) :
    m.existe_camino_valido desde hasta = true ↔
      AlcanzableActor m .jugador .escapa desde hasta :=
  existe_camino_valido_iff m desde hasta

/-- C5 counterexample: a walking move with stamina below the walking cost is
not rejected: the rejected-for-stamina rule only exists for running, so a
player with zero stamina still walks onto the neighbouring Path cell. -/
theorem mover_sin_energia_avanza :
    (Jugador.nuevo 0 0 0).energia_actual < ENERGIA_CAMINAR ∧
    ((Jugador.nuevo 0 0 0).mover_derecha mapaEjC5 false).2 = true ∧
    ((Jugador.nuevo 0 0 0).mover_derecha mapaEjC5 false).1.columna = 1 := by
  refine ⟨by norm_num [Jugador.nuevo, ENERGIA_CAMINAR], ?_, ?_⟩ <;>
    · norm_num [Jugador.mover_derecha, Jugador.mover, Jugador.nuevo,
        Jugador.consumir_energia, Jugador.puede_correr, ENERGIA_CAMINAR,
        ENERGIA_CORRER, mapaEjC5, Mapa.es_posicion_valida,
        Mapa.es_transitable_por_jugador, casillaEn, Tile.permite_paso_jugador]
      decide

/-- C5 amended: a player move call fails exactly when the destination is
off-grid, not player-passable under the escapa rule, or the move is a run
without the stamina to run (walking is never rejected for stamina); every
failed call leaves the player record unchanged. -/
theorem mover_rechazo_estado (m : Mapa) (j : Jugador) (d : Direccion)
    (corriendo : Bool) :
    ((j.mover_dir m d corriendo).2 = false ↔
      (m.es_posicion_valida (j.destino d).1 (j.destino d).2 = false ∨
        m.es_transitable_por_jugador (j.destino d).1 (j.destino d).2 .escapa = false ∨
        (corriendo = true ∧ j.puede_correr = false))) ∧
    ((j.mover_dir m d corriendo).2 = false → (j.mover_dir m d corriendo).1 = j) := by
  rw [mover_dir_eq_mover]
  exact mover_rechazo j m (j.destino d).1 (j.destino d).2 corriendo

/-- Witness for C5: a rejected move (off-grid destination) leaves the player
record unchanged. -/
theorem mover_rechazo_estado_witness :
    ((Jugador.nuevo 0 0 100).mover_dir mapaEjC5 .izquierda false).1 =
      Jugador.nuevo 0 0 100 :=
  (mover_rechazo_estado mapaEjC5 (Jugador.nuevo 0 0 100) .izquierda false).2
    (by decide)

/-- C6 counterexample: the constructor only validates the first row's length,
so a ragged matrix whose second row is too short is accepted, violating the
claimed every-row-matches-width invariant. -/
theorem nuevo_fila_corta_aceptado :
    Mapa.nuevo 2 2 [[Tile.camino, Tile.camino], [Tile.camino]] (0, 0) [(0, 1)] =
      Except.ok ⟨2, 2, [[Tile.camino, Tile.camino], [Tile.camino]], (0, 0), [(0, 1)]⟩ ∧
    ¬ (∀ fila ∈ [[Tile.camino, Tile.camino], [Tile.camino]], fila.length = 2) := by
  exact ⟨rfl, by decide⟩

/-- C6 amended: construction fails fast (with an error, never clamping) iff
the dimensions are non-positive, the row count differs from the declared
height, the first row's length differs from the declared width, the start or
an exit is out of bounds, or the exit list is empty; on success the
attributes are stored unchanged, so the matrix has exactly `alto` rows and
its first row has length `ancho` (later rows are not validated). -/
theorem nuevo_valida (ancho alto : ℤ) (casillas : List (List Tile)) (inicio : Pos)
    (salidas : List Pos) :
    ((∃ m, Mapa.nuevo ancho alto casillas inicio salidas = .ok m) ↔
      (0 < ancho ∧ 0 < alto ∧ (casillas.length : ℤ) = alto ∧
        ((casillas.getD 0 []).length : ℤ) = ancho ∧
        enLimites alto ancho inicio ∧ salidas ≠ [] ∧
        ∀ s ∈ salidas, enLimites alto ancho s)) ∧
    ∀ m, Mapa.nuevo ancho alto casillas inicio salidas = .ok m →
      m = ⟨ancho, alto, casillas, inicio, salidas⟩ := by
  unfold Mapa.nuevo
  by_cases h1 : ancho ≤ 0 ∨ alto ≤ 0
  · rw [if_pos h1]
    exact ⟨⟨fun hcon => hcon.elim (fun m hm => by cases hm),
      fun hcon => by rcases h1 with h | h <;> rcases hcon with ⟨ha, hb, _⟩ <;> omega⟩,
      fun m hm => by cases hm⟩
  · rw [if_neg h1]
    push_neg at h1
    by_cases h2 : (casillas.length : ℤ) ≠ alto
    · rw [if_pos h2]
      exact ⟨⟨fun hcon => hcon.elim (fun m hm => by cases hm),
        fun hcon => absurd hcon.2.2.1 h2⟩, fun m hm => by cases hm⟩
    · rw [if_neg h2]
      push_neg at h2
      by_cases h3 : 0 < casillas.length ∧ ((casillas.getD 0 []).length : ℤ) ≠ ancho
      · rw [if_pos h3]
        exact ⟨⟨fun hcon => hcon.elim (fun m hm => by cases hm),
          fun hcon => absurd hcon.2.2.2.1 h3.2⟩, fun m hm => by cases hm⟩
      · rw [if_neg h3]
        have hrow : ((casillas.getD 0 []).length : ℤ) = ancho := by
          rcases not_and_or.mp h3 with hlen | hlen
          · exfalso
            have hcl : (casillas.length : ℤ) = alto := h2
            omega
          · exact not_not.mp hlen
        by_cases h4 : ¬ (0 ≤ inicio.1 ∧ inicio.1 < alto ∧ 0 ≤ inicio.2 ∧ inicio.2 < ancho)
        · rw [if_pos h4]
          exact ⟨⟨fun hcon => hcon.elim (fun m hm => by cases hm),
            fun hcon => absurd hcon.2.2.2.2.1 h4⟩, fun m hm => by cases hm⟩
        · rw [if_neg h4]
          push_neg at h4
          by_cases h5 : salidas.isEmpty = true
          · rw [if_pos h5]
            exact ⟨⟨fun hcon => hcon.elim (fun m hm => by cases hm),
              fun hcon => absurd (List.isEmpty_iff.mp h5) hcon.2.2.2.2.2.1⟩,
              fun m hm => by cases hm⟩
          · rw [if_neg h5]
            by_cases h6 : ¬ (∀ s ∈ salidas, 0 ≤ s.1 ∧ s.1 < alto ∧ 0 ≤ s.2 ∧ s.2 < ancho)
            · rw [if_pos h6]
              exact ⟨⟨fun hcon => hcon.elim (fun m hm => by cases hm),
                fun hcon => absurd hcon.2.2.2.2.2.2 h6⟩, fun m hm => by cases hm⟩
            · rw [if_neg h6]
              push_neg at h6
              refine ⟨⟨fun _ => ?_, fun _ => ⟨_, rfl⟩⟩, fun m hm => ?_⟩
              · refine ⟨h1.1, h1.2, h2, hrow, h4, ?_, h6⟩
                intro hcon
                rw [hcon] at h5
                exact h5 rfl
              · injection hm with hinj
                exact hinj.symm

/-- Witness for C6: a fully valid construction succeeds and stores the
attributes unchanged. -/
theorem nuevo_valida_witness :
    Mapa.nuevo 1 1 [[Tile.camino]] (0, 0) [(0, 0)] =
      .ok ⟨1, 1, [[Tile.camino]], (0, 0), [(0, 0)]⟩ := by
  obtain ⟨m, hm⟩ := (nuevo_valida 1 1 [[Tile.camino]] (0, 0) [(0, 0)]).1.mpr
    (by refine ⟨by norm_num, by norm_num, by norm_num, by norm_num, ?_, by simp, ?_⟩ <;>
      simp [enLimites])
  rw [hm, (nuevo_valida 1 1 [[Tile.camino]] (0, 0) [(0, 0)]).2 m hm]

/-- C7: placeTrap fails exactly when the active-trap count has reached the
cap or an active trap already occupies the cell; otherwise it appends a
fresh active trap at the cell and succeeds, and a failed call changes
nothing. -/
theorem colocar_trampa_correcto (g : GestorTrampas) (fila columna : ℤ) (t : ℚ) :
    (((g.colocar_trampa fila columna t).2 = false) ↔
      (g.max_trampas_activas ≤ (g.trampas.filter (fun tr => tr.esta_activa)).length ∨
        ∃ tr ∈ g.trampas, tr.obtener_posicion = (fila, columna) ∧
          tr.esta_activa = true)) ∧
    ((g.colocar_trampa fila columna t).2 = false →
      (g.colocar_trampa fila columna t).1 = g) ∧
    ((g.colocar_trampa fila columna t).2 = true →
      (g.colocar_trampa fila columna t).1.trampas =
        g.trampas ++ [⟨fila, columna, .activa⟩] ∧
      (g.colocar_trampa fila columna t).1.max_trampas_activas =
        g.max_trampas_activas) := by
  unfold GestorTrampas.colocar_trampa
  by_cases h1 : g.max_trampas_activas ≤ (g.trampas.filter (fun tr => tr.esta_activa)).length
  · rw [if_pos h1]
    exact ⟨⟨fun _ => Or.inl h1, fun _ => rfl⟩, fun _ => rfl, fun hcon => by cases hcon⟩
  · rw [if_neg h1]
    by_cases h2 : g.trampas.any (fun tr =>
        decide (tr.obtener_posicion = (fila, columna)) && tr.esta_activa) = true
    · rw [if_pos h2]
      have hex : ∃ tr ∈ g.trampas, tr.obtener_posicion = (fila, columna) ∧
          tr.esta_activa = true := by
        obtain ⟨tr, htr, hp⟩ := List.any_eq_true.mp h2
        rw [Bool.and_eq_true] at hp
        exact ⟨tr, htr, of_decide_eq_true hp.1, hp.2⟩
      exact ⟨⟨fun _ => Or.inr hex, fun _ => rfl⟩, fun _ => rfl, fun hcon => by cases hcon⟩
    · rw [if_neg h2]
      refine ⟨⟨fun hfalse => by simp at hfalse, fun hcon => ?_⟩,
        fun hfalse => by simp at hfalse, fun _ => ⟨rfl, rfl⟩⟩
      rcases hcon with hc | ⟨tr, htr, hp, ha⟩
      · exact absurd hc h1
      · exact absurd (List.any_eq_true.mpr ⟨tr, htr, by simp [hp, ha]⟩) h2

/-- Witness for C7: a successful placement on an empty manager appends one
active trap. -/
theorem colocar_trampa_correcto_witness :
    ((⟨[], 3⟩ : GestorTrampas).colocar_trampa 1 2 0).1.trampas =
      [⟨1, 2, .activa⟩] := by
  have h := (colocar_trampa_correcto ⟨[], 3⟩ 1 2 0).2.2 (by rfl)
  simpa using h.1

/-- Concrete trap manager and enemy for the C8 and C9 witnesses. -/
def gestorEjC8 : GestorTrampas := ⟨[⟨0, 0, .activa⟩], 3⟩

def enemigoEj : Enemigo := ⟨0, 0, .activo, 10, 0⟩

/-- C8: one collision sweep kills, for each active trap, the first live enemy
standing exactly on it (turning it dead in place with its respawn timer
armed) and consumes that trap; surviving traps are exactly the active ones
that did not fire (inactive traps are pruned), and the returned count equals
both the number of consumed traps and the increase in dead enemies. -/
theorem verificar_colisiones_correcto (g : GestorTrampas) (enemigos : List Enemigo) :
    List.Forall₂ (RelBarrido (g.trampas.filter (fun tr => tr.esta_activa))) enemigos
      (g.verificar_colisiones_enemigos enemigos).2.1 ∧
    (∀ t ∈ (g.verificar_colisiones_enemigos enemigos).1.trampas,
      t.esta_activa = true ∧ t ∈ g.trampas) ∧
    ((g.verificar_colisiones_enemigos enemigos).1.trampas.length +
        (g.verificar_colisiones_enemigos enemigos).2.2 =
      (g.trampas.filter (fun tr => tr.esta_activa)).length) ∧
    (muertosCount (g.verificar_colisiones_enemigos enemigos).2.1 =
      muertosCount enemigos + (g.verificar_colisiones_enemigos enemigos).2.2) ∧
    (∀ (pos : Pos) (es es2 : List Enemigo), matarPrimerEnemigoEn pos es = some es2 →
      ∃ (l r : List Enemigo) (e : Enemigo), es = l ++ e :: r ∧
        es2 = l ++ e.matar :: r ∧
        e.esta_vivo = true ∧ e.obtener_posicion = pos ∧
        ∀ x ∈ l, ¬(x.esta_vivo = true ∧ x.obtener_posicion = pos)) := by
  refine ⟨barrido_enemigos _ _, ?_, barrido_cuenta _ _, barrido_muertos _ _,
    fun pos es es2 h => matarPrimer_some h⟩
  intro t ht
  have hmem := barrido_trampas_sub (g.trampas.filter (fun tr => tr.esta_activa))
    enemigos t ht
  exact ⟨(List.mem_filter.mp hmem).2, (List.mem_filter.mp hmem).1⟩

/-- Witness for C8: the scan of a single live enemy on the trap cell kills
exactly that enemy. -/
theorem verificar_colisiones_correcto_witness :
    ∃ (l r : List Enemigo) (e : Enemigo),
      ([enemigoEj] : List Enemigo) = l ++ e :: r ∧
      [enemigoEj.matar] = l ++ e.matar :: r ∧
      e.esta_vivo = true ∧ e.obtener_posicion = (0, 0) ∧
      ∀ x ∈ l, ¬(x.esta_vivo = true ∧ x.obtener_posicion = (0, 0)) :=
  (verificar_colisiones_correcto gestorEjC8 [enemigoEj]).2.2.2.2 (0, 0)
    [enemigoEj] [enemigoEj.matar] (by rfl)

/-- C9: an escapa-mode pursuit step first runs the enemy BFS to the player;
with a path of length at least two the enemy moves exactly onto the path's
second cell; otherwise it applies the greedy fallback, which picks the
earliest successful move (order arriba, abajo, izquierda, derecha) strictly
minimising the Manhattan distance to the player's current position, and
stays put when no successful move strictly lowers it. -/
theorem persecucion_correcta (m : Mapa) (e : Enemigo) (jugador_pos : Pos) :
    (∀ camino,
      encontrar_camino_bfs_escapa m e.obtener_posicion jugador_pos = some camino →
      2 ≤ camino.length →
      (e.perseguir_jugador m jugador_pos).obtener_posicion =
        camino.getD 1 e.obtener_posicion) ∧
    ((encontrar_camino_bfs_escapa m e.obtener_posicion jugador_pos = none ∨
        ∃ c, encontrar_camino_bfs_escapa m e.obtener_posicion jugador_pos = some c ∧
          c.length < 2) →
      ((e.perseguir_jugador_simple m jugador_pos = none →
          e.perseguir_jugador m jugador_pos = e ∧
          ∀ d ∈ ordenDirecciones, (e.mover_dir m d .escapa).2 = true →
            manhattan jugador_pos e.obtener_posicion ≤ distTras e m jugador_pos d) ∧
       (∀ d, e.perseguir_jugador_simple m jugador_pos = some d →
          e.perseguir_jugador m jugador_pos = (e.mover_dir m d Modo.escapa).1 ∧
          (e.mover_dir m d .escapa).2 = true ∧
          distTras e m jugador_pos d < manhattan jugador_pos e.obtener_posicion ∧
          (∀ d2 ∈ ordenDirecciones, (e.mover_dir m d2 .escapa).2 = true →
            distTras e m jugador_pos d ≤ distTras e m jugador_pos d2) ∧
          ∃ pre post, ordenDirecciones = pre ++ d :: post ∧
            ∀ d2 ∈ pre, (e.mover_dir m d2 .escapa).2 = true →
              distTras e m jugador_pos d < distTras e m jugador_pos d2))) := by
  constructor
  · intro camino hcam hlen
    exact perseguir_camino_paso hcam hlen
  · intro hcond
    have heq := perseguir_fallback_eq hcond
    constructor
    · intro hnone
      rw [heq, hnone]
      exact ⟨rfl, perseguir_simple_none hnone⟩
    · intro d hsome
      rw [heq, hsome]
      obtain ⟨h1, h2, h3, h4⟩ := perseguir_simple_some hsome
      exact ⟨rfl, h1, h2, h3, h4⟩

/-- Concrete boards for the C9 witness: an open corridor where BFS finds the
path, and a tunnel-blocked corridor where BFS fails and no fallback move
helps. -/
def mapaEjC9 : Mapa := ⟨3, 1, [[Tile.camino, Tile.camino, Tile.camino]], (0, 0), [(0, 2)]⟩

def mapaEjC9b : Mapa := ⟨3, 1, [[Tile.camino, Tile.tunel, Tile.camino]], (0, 0), [(0, 2)]⟩

/-- Witness for C9: on the open corridor the enemy advances onto the second
path cell; on the blocked corridor BFS fails, no move helps, and the enemy
stays put. -/
theorem persecucion_correcta_witness :
    (enemigoEj.perseguir_jugador mapaEjC9 (0, 2)).obtener_posicion = (0, 1) ∧
    enemigoEj.perseguir_jugador mapaEjC9b (0, 2) = enemigoEj := by
  constructor
  · have h := (persecucion_correcta mapaEjC9 enemigoEj (0, 2)).1
      [(0, 0), (0, 1), (0, 2)] (by decide) (by norm_num)
    simpa using h
  · have h := ((persecucion_correcta mapaEjC9b enemigoEj (0, 2)).2
      (Or.inl (by decide))).1 (by decide)
    exact h.1

/-- C10 counterexample: the player's own move methods are not unconditional
about in-bounds Tunnel cells: a run with insufficient stamina onto an
in-bounds Tunnel is rejected. -/
theorem correr_sin_energia_tunel_falla :
    mapaEjC10.es_posicion_valida 0 1 = true ∧
    casillaEn mapaEjC10.casillas 0 1 = .tunel ∧
    ((Jugador.nuevo 0 0 0).mover_derecha mapaEjC10 true).2 = false := by
  refine ⟨by decide, by decide, ?_⟩
  norm_num [Jugador.mover_derecha, Jugador.mover, Jugador.nuevo,
    Jugador.puede_correr, ENERGIA_CORRER, mapaEjC10, Mapa.es_posicion_valida,
    Mapa.es_transitable_por_jugador, casillaEn, Tile.permite_paso_jugador]

/-- C10 amended: the player's own move methods always apply the escapa-mode
player rule (the mode is hard-coded; the cazador controller bypasses these
methods): a walking move onto an in-bounds Tunnel cell succeeds and lands
there, and any move onto a Vine cell is rejected with the player unchanged,
whatever the game mode in effect. -/
theorem jugador_mueve_reglas_escapa (m : Mapa) (j : Jugador) (d : Direccion) :
    (casillaEn m.casillas (j.destino d).1 (j.destino d).2 = .tunel →
      m.es_posicion_valida (j.destino d).1 (j.destino d).2 = true →
      ((j.mover_dir m d false).2 = true ∧
        (j.mover_dir m d false).1.fila = (j.destino d).1 ∧
        (j.mover_dir m d false).1.columna = (j.destino d).2)) ∧
    (casillaEn m.casillas (j.destino d).1 (j.destino d).2 = .liana →
      ∀ corriendo, (j.mover_dir m d corriendo) = (j, false)) := by
  constructor
  · intro htile hval
    have htrans : m.es_transitable_por_jugador (j.destino d).1 (j.destino d).2
        .escapa = true := by
      rw [Mapa.es_transitable_por_jugador, if_neg (by simp [hval])]
      simp [htile, Tile.permite_paso_jugador]
    have hiff := mover_rechazo j m (j.destino d).1 (j.destino d).2 false
    have htrue : (j.mover m (j.destino d).1 (j.destino d).2 false).2 = true := by
      by_contra hfalse
      rw [Bool.not_eq_true] at hfalse
      rcases hiff.1.mp hfalse with hc | hc | hc
      · rw [hval] at hc; cases hc
      · rw [htrans] at hc; cases hc
      · cases hc.1
    rw [mover_dir_eq_mover]
    exact ⟨htrue, mover_exito_posicion j m _ _ false htrue⟩
  · intro htile corriendo
    have htrans : m.es_transitable_por_jugador (j.destino d).1 (j.destino d).2
        .escapa = false := by
      rw [Mapa.es_transitable_por_jugador]
      by_cases hval : m.es_posicion_valida (j.destino d).1 (j.destino d).2 = false
      · rw [if_pos hval]
      · rw [if_neg hval]
        simp [htile, Tile.permite_paso_jugador]
    have hiff := mover_rechazo j m (j.destino d).1 (j.destino d).2 corriendo
    have hfalse := hiff.1.mpr (Or.inr (Or.inl htrans))
    rw [mover_dir_eq_mover]
    exact Prod.ext_iff.mpr ⟨hiff.2 hfalse, hfalse⟩

/-- Witness for C10: walking onto the Tunnel succeeds; running onto the Vine
is rejected unchanged. -/
theorem jugador_mueve_reglas_escapa_witness :
    ((Jugador.nuevo 0 0 100).mover_dir mapaEjC10 .derecha false).2 = true ∧
    ((Jugador.nuevo 0 0 100).mover_dir mapaEjC4 .derecha true) =
      (Jugador.nuevo 0 0 100, false) :=
  ⟨((jugador_mueve_reglas_escapa mapaEjC10 (Jugador.nuevo 0 0 100) .derecha).1
      (by decide) (by decide)).1,
   (jugador_mueve_reglas_escapa mapaEjC4 (Jugador.nuevo 0 0 100) .derecha).2
      (by decide) true⟩
